import Mathlib

/-!
# The HACK software rasterizer (`src/hack.hpp`)

A shallow embedding of `HACK_rasterize_triangles` and `__HACK_rasterize_triangle`
together with the properties of the scan conversion that the specification states.

Conventions of the embedding

* C `int` values are mathematical integers (`Int`); the sentinels `INT_MAX` and
  `INT_MIN` keep their 32-bit values.  Where a property depends on a computed column
  being a representable `int`, that is stated as a hypothesis (`XRepresentable`).
* C `float` values are exact rationals (`ℚ`): rounding error is not modelled.  The only
  float operation that can leave the rationals is a division by zero, so a float
  quotient is an `Option ℚ` (`fdiv`), `none` standing for the non-finite result.
* `ceil` is `Int.ceil` and `ctx.height / 2` is the truncating `Int.tdiv`.
* The scanline buffer is a store indexed by `Int` (`scanlines[i]` is `scanlines i`);
  every index the code dereferences is appended to `scanlineAccesses`.
* The shaders are pure functions; each invocation is appended to a log in the state
  (`vertexCalls`, `fragmentCalls`), in program order.
-/

namespace Hack

/-! ## Data model -/

/-- The value of `INT_MAX` (`<limits.h>`, 32-bit `int`). -/
def INT_MAX : Int := 2147483647

/-- The value of `INT_MIN` (`<limits.h>`, 32-bit `int`). -/
def INT_MIN : Int := -2147483648

/-- The rendering context `struct HACK_Context`. -/
structure HACK_Context where
  width : Int
  height : Int
deriving DecidableEq

/-- Modelled from the spec: `HACK_Vec3` is declared in `hack_types.hpp`, which is not part
of the sources; the spec gives a position the three float components `x`, `y`, `z`. -/
structure HACK_Vec3 where
  x : ℚ
  y : ℚ
  z : ℚ
deriving DecidableEq

/-- Output of a vertex shader, `struct HACK_vertex`. -/
structure HACK_vertex (V : Type) where
  position : HACK_Vec3
  varying : V
deriving DecidableEq

/-- One raster row, `struct HACK_Scanline`. -/
structure HACK_Scanline (V : Type) where
  leftX : Int
  rightX : Int
  leftZ : ℚ
  rightZ : ℚ
  leftVarying : V
  rightVarying : V
deriving DecidableEq

/-- Modelled from the spec: the generic `lerp(a, b, t, out)` of `hack_types.hpp` is not
part of the sources; the spec requires a linear-interpolation operation for the varying
payload and for the scalar depth.  Both are parameters of the embedding.  The
interpolation parameter is a float quotient, hence an `Option ℚ`. -/
structure HACK_Lerp (V : Type) where
  varying : V → V → Option ℚ → V
  scalar : ℚ → ℚ → Option ℚ → ℚ

/-- One invocation of the fragment shader: the interpolated varying it received, the
pixel coordinates and depth computed next to it, and the pixel it returned. -/
structure FragmentCall (V P : Type) where
  varying : V
  pixelX : Int
  pixelY : Int
  pixelZ : ℚ
  output : P
deriving DecidableEq

/-- The mutable state of a rasterization: the scanline buffer and the three logs. -/
structure HACK_State (V P : Type) where
  scanlines : Int → HACK_Scanline V
  vertexCalls : List Int
  fragmentCalls : List (FragmentCall V P)
  scanlineAccesses : List Int

/-- The local array `vertexShaderOutput[3]`. -/
structure VertexArray (V : Type) where
  e0 : HACK_vertex V
  e1 : HACK_vertex V
  e2 : HACK_vertex V
deriving DecidableEq

/-- Read `vertexShaderOutput[i]` (`i < 3`). -/
def VertexArray.get {V : Type} (a : VertexArray V) (i : Nat) : HACK_vertex V :=
  match i with
  | 0 => a.e0
  | 1 => a.e1
  | _ => a.e2

/-- Write `vertexShaderOutput[i]` (`i < 3`). -/
def VertexArray.set {V : Type} (a : VertexArray V) (i : Nat) (v : HACK_vertex V) :
    VertexArray V :=
  match i with
  | 0 => { a with e0 := v }
  | 1 => { a with e1 := v }
  | _ => { a with e2 := v }

/-! ## Primitive operations -/

/-- Float division: `none` is the non-finite result of a division by zero. -/
def fdiv (a b : ℚ) : Option ℚ :=
  if b = 0 then none else some (a / b)

/-- A counting loop `for (int i = lo; ...; ++i) body` that runs `n` more times, for a body
that changes neither the counter nor the bound. -/
def forLoop {σ : Type} (body : Int → σ → σ) : Nat → Int → σ → σ
  | 0, _, s => s
  | n + 1, i, s => forLoop body n (i + 1) (body i s)

/-- Dereference `scanlines[idx]` as a reference and apply the row update `f` to it. -/
def touch {V P : Type} (idx : Int) (f : HACK_Scanline V → HACK_Scanline V)
    (s : HACK_State V P) : HACK_State V P :=
  { s with
    scanlines := Function.update s.scanlines idx (f (s.scanlines idx))
    scanlineAccesses := s.scanlineAccesses ++ [idx] }

/-- Lines 118-119: the reset of one slot. -/
def resetUpdate {V : Type} (sl : HACK_Scanline V) : HACK_Scanline V :=
  { sl with leftX := INT_MAX, rightX := INT_MIN }

/-- Lines 153-159: the row update of a vertical edge.  `z` and `w` are the depth and the
varying interpolated along the edge at this row; both sides are overwritten. -/
def verticalUpdate {V : Type} (x : Int) (z : ℚ) (w : V) (sl : HACK_Scanline V) :
    HACK_Scanline V :=
  { leftX := min sl.leftX x
    rightX := max sl.rightX x
    leftZ := z
    rightZ := z
    leftVarying := w
    rightVarying := w }

/-- Lines 171-181: the row update of a general edge.  A side is overwritten only when
`x` equals the extent that results from the widening. -/
def generalUpdate {V : Type} (x : Int) (z : ℚ) (w : V) (sl : HACK_Scanline V) :
    HACK_Scanline V :=
  let leftX := min sl.leftX x
  let rightX := max sl.rightX x
  { leftX := leftX
    rightX := rightX
    leftZ := if x = leftX then z else sl.leftZ
    rightZ := if x = rightX then z else sl.rightZ
    leftVarying := if x = leftX then w else sl.leftVarying
    rightVarying := if x = rightX then w else sl.rightVarying }

/-- Lines 155 and 173: the interpolation parameter of row `y` on the edge `v1 → v2`. -/
def edgeLerpVal {V : Type} (halfHeight : Int) (v1 v2 : HACK_vertex V) (y : Int) : Option ℚ :=
  fdiv ((y : ℚ) - v1.position.y * halfHeight)
    (v2.position.y * halfHeight - v1.position.y * halfHeight)

/-- Line 150: the column of a vertical edge. -/
def verticalX {V : Type} (halfWidth : Int) (v2 : HACK_vertex V) : Int :=
  Int.ceil v2.position.x * halfWidth

/-- Lines 137, 138, 164, 168: the line equation of a general edge at row `y`. -/
def generalX {V : Type} (halfWidth halfHeight : Int) (v1 v2 : HACK_vertex V) (y : Int) : Int :=
  let dy : ℚ := (v2.position.y - v1.position.y) * halfHeight
  let dx : ℚ := (v2.position.x - v1.position.x) * halfWidth
  let gradient : ℚ := dx / dy
  Int.ceil (v1.position.x * halfWidth + ((y : ℚ) - v1.position.y * halfHeight) * gradient)

/-! ## `__HACK_rasterize_triangle` -/

/-- Lines 106-107: `halfHeight` and `halfWidth`. -/
def halfHeight (ctx : HACK_Context) : Int := Int.tdiv ctx.height 2

/-- Line 107. -/
def halfWidth (ctx : HACK_Context) : Int := Int.tdiv ctx.width 2

/-- Line 113. -/
def bottomScanY {V : Type} (ctx : HACK_Context) (a : VertexArray V) : Int :=
  Int.ceil (min (min (a.e0.position.y * halfHeight ctx) (a.e1.position.y * halfHeight ctx))
    (a.e2.position.y * halfHeight ctx))

/-- Line 114. -/
def topScanY {V : Type} (ctx : HACK_Context) (a : VertexArray V) : Int :=
  Int.ceil (max (max (a.e0.position.y * halfHeight ctx) (a.e1.position.y * halfHeight ctx))
    (a.e2.position.y * halfHeight ctx))

/-- Line 115. -/
def scanlineNum {V : Type} (ctx : HACK_Context) (a : VertexArray V) : Int :=
  topScanY ctx a - bottomScanY ctx a

/-- Lines 117-120: the reset loop. -/
def resetScanlines {V P : Type} (n : Int) (s : HACK_State V P) : HACK_State V P :=
  forLoop (fun i s => touch i resetUpdate s) n.toNat 0 s

/-- Lines 126-132: bind `v1`, `v2` to two slots of the array and `std::swap` the slots when
`v1` is the higher one.  The swap is on references, so it changes the array. -/
def orderEdge {V : Type} (a : VertexArray V) (i : Nat) : VertexArray V :=
  let i2 := if i = 2 then 0 else i + 1
  if (a.get i).position.y > (a.get i2).position.y then
    (a.set i (a.get i2)).set i2 (a.get i)
  else a

/-- Lines 152-159: one row of a vertical edge. -/
def verticalRow {V P : Type} (L : HACK_Lerp V) (ctx : HACK_Context) (bot : Int)
    (v1 v2 : HACK_vertex V) (y : Int) (s : HACK_State V P) : HACK_State V P :=
  let lerpVal := edgeLerpVal (halfHeight ctx) v1 v2 y
  touch (y - bot)
    (verticalUpdate (verticalX (halfWidth ctx) v2)
      (L.scalar v1.position.z v2.position.z lerpVal)
      (L.varying v1.varying v2.varying lerpVal)) s

/-- Lines 168-181: one row of a general edge. -/
def generalRow {V P : Type} (L : HACK_Lerp V) (ctx : HACK_Context) (bot : Int)
    (v1 v2 : HACK_vertex V) (y : Int) (s : HACK_State V P) : HACK_State V P :=
  let lerpVal := edgeLerpVal (halfHeight ctx) v1 v2 y
  touch (y - bot)
    (generalUpdate (generalX (halfWidth ctx) (halfHeight ctx) v1 v2 y)
      (L.scalar v1.position.z v2.position.z lerpVal)
      (L.varying v1.varying v2.varying lerpVal)) s

/-- Lines 126-183: the body of the edge loop for edge `i`; `bot` is `bottomScanY`. -/
def walkEdge {V P : Type} (L : HACK_Lerp V) (ctx : HACK_Context) (bot : Int) (i : Nat)
    (p : VertexArray V × HACK_State V P) : VertexArray V × HACK_State V P :=
  let a := orderEdge p.1 i
  let v1 := a.get i
  let v2 := a.get (if i = 2 then 0 else i + 1)
  let dy : ℚ := (v2.position.y - v1.position.y) * halfHeight ctx
  let dx : ℚ := (v2.position.x - v1.position.x) * halfWidth ctx
  let bottomY : Int := Int.ceil (v1.position.y * halfHeight ctx)
  let topY : Int := Int.ceil (v2.position.y * halfHeight ctx)
  if dy = 0 then (a, p.2)
  else if dx = 0 then
    (a, forLoop (verticalRow L ctx bot v1 v2) (topY + 1 - bottomY).toNat bottomY p.2)
  else
    (a, forLoop (generalRow L ctx bot v1 v2) (topY + 1 - bottomY).toNat bottomY p.2)

/-- Lines 125-184: the edge loop, `i = 0, 1, 2`. -/
def walkEdges {V P : Type} (L : HACK_Lerp V) (ctx : HACK_Context) (bot : Int)
    (p : VertexArray V × HACK_State V P) : VertexArray V × HACK_State V P :=
  walkEdge L ctx bot 2 (walkEdge L ctx bot 1 (walkEdge L ctx bot 0 p))

/-- Lines 198-206: one pixel of a scanline. -/
def shadePixel {V P U : Type} (L : HACK_Lerp V) (ctx : HACK_Context) (bot : Int)
    (uniforms : U) (fragmentShader : V → U → P) (i : Int) (scanline : HACK_Scanline V)
    (j : Int) (s : HACK_State V P) : HACK_State V P :=
  let lerpVal := fdiv ((j - scanline.leftX : Int) : ℚ) ((scanline.rightX - scanline.leftX : Int) : ℚ)
  let lerpedVarying := L.varying scanline.leftVarying scanline.rightVarying lerpVal
  let pixelZ := L.scalar scanline.leftZ scanline.rightZ lerpVal
  let pixelX := j + halfWidth ctx
  let pixelY := i + bot + halfHeight ctx
  { s with
    fragmentCalls := s.fragmentCalls ++
      [{ varying := lerpedVarying, pixelX := pixelX, pixelY := pixelY, pixelZ := pixelZ,
         output := fragmentShader lerpedVarying uniforms }] }

/-- Lines 191-211: one scanline of the shading loop. -/
def shadeRow {V P U : Type} (L : HACK_Lerp V) (ctx : HACK_Context) (bot : Int)
    (uniforms : U) (fragmentShader : V → U → P) (i : Int) (s : HACK_State V P) :
    HACK_State V P :=
  let scanline := s.scanlines i
  let s1 : HACK_State V P := { s with scanlineAccesses := s.scanlineAccesses ++ [i] }
  forLoop (shadePixel L ctx bot uniforms fragmentShader i scanline)
    (scanline.rightX + 1 - scanline.leftX).toNat scanline.leftX s1

/-- Lines 190-212: the shading loop. -/
def shadeScanlines {V P U : Type} (L : HACK_Lerp V) (ctx : HACK_Context) (bot : Int)
    (uniforms : U) (fragmentShader : V → U → P) (n : Int) (s : HACK_State V P) :
    HACK_State V P :=
  forLoop (shadeRow L ctx bot uniforms fragmentShader) n.toNat 0 s

/-- Lines 113-184: row range, reset and edge walk for the vertex-shader outputs `a`. -/
def edgeWalk {V P : Type} (L : HACK_Lerp V) (ctx : HACK_Context) (a : VertexArray V)
    (s : HACK_State V P) : VertexArray V × HACK_State V P :=
  walkEdges L ctx (bottomScanY ctx a) (a, resetScanlines (scanlineNum ctx a) s)

/-- Lines 106-212: everything `__HACK_rasterize_triangle` does after the vertex shader has
produced the array `a`. -/
def rasterizeVertices {V P U : Type} (L : HACK_Lerp V) (ctx : HACK_Context) (uniforms : U)
    (fragmentShader : V → U → P) (a : VertexArray V) (s : HACK_State V P) : HACK_State V P :=
  shadeScanlines L ctx (bottomScanY ctx a) uniforms fragmentShader (scanlineNum ctx a)
    (edgeWalk L ctx a s).2

/-- Lines 101-104: the three vertex-shader invocations. -/
def shadeVertices {A V U : Type} (polygonAttributes : Int → A) (uniforms : U)
    (vertexShader : A → U → HACK_vertex V) (triangleId : Int) : VertexArray V :=
  { e0 := vertexShader (polygonAttributes triangleId) uniforms
    e1 := vertexShader (polygonAttributes (triangleId + 1)) uniforms
    e2 := vertexShader (polygonAttributes (triangleId + 2)) uniforms }

/-- The function `__HACK_rasterize_triangle`. -/
def __HACK_rasterize_triangle {A V P U : Type} (L : HACK_Lerp V) (ctx : HACK_Context)
    (triangleId : Int) (polygonAttributes : Int → A) (uniforms : U)
    (vertexShader : A → U → HACK_vertex V) (fragmentShader : V → U → P)
    (s : HACK_State V P) : HACK_State V P :=
  let a := shadeVertices polygonAttributes uniforms vertexShader triangleId
  let s1 : HACK_State V P :=
    { s with vertexCalls := s.vertexCalls ++ [triangleId, triangleId + 1, triangleId + 2] }
  rasterizeVertices L ctx uniforms fragmentShader a s1

/-! ## `HACK_rasterize_triangles` -/

/-- Lines 77-80: `for (int v = 0; v < vertexCount;) { ...; v += 3; }` from the value `v`. -/
def trianglesLoop {σ : Type} (vertexCount : Int) (body : Int → σ → σ) (v : Int) (s : σ) : σ :=
  if v < vertexCount then trianglesLoop vertexCount body (v + 3) (body v s) else s
termination_by (vertexCount - v).toNat
decreasing_by omega

/-- The function `HACK_rasterize_triangles`. -/
def HACK_rasterize_triangles {A V P U : Type} (L : HACK_Lerp V) (ctx : HACK_Context)
    (polygonAttributes : Int → A) (uniforms : U) (vertexCount : Int)
    (vertexShader : A → U → HACK_vertex V) (fragmentShader : V → U → P)
    (s : HACK_State V P) : HACK_State V P :=
  trianglesLoop vertexCount
    (fun v s => __HACK_rasterize_triangle L ctx v polygonAttributes uniforms vertexShader
      fragmentShader s) 0 s

/-! ## The edge walk as a list of row updates

The definitions below describe what the loops of the edge walk do, as data: the pairs
`(v1, v2)` the three iterations bind, and for each pair the row updates it performs.
`edgeWalk_eq` proves that the code is the left fold of these updates. -/

/-- The integers `lo, lo + 1, ..., lo + n - 1`. -/
def intRange (lo : Int) : Nat → List Int
  | 0 => []
  | n + 1 => lo :: intRange (lo + 1) n

/-- One row update of the edge walk: the slot index, whether the edge is vertical, the
column `x` and the depth and varying interpolated along the edge at that row. -/
structure EdgeOp (V : Type) where
  idx : Int
  vert : Bool
  x : Int
  z : ℚ
  w : V

/-- The row update an `EdgeOp` applies to its slot. -/
def EdgeOp.apply {V : Type} (o : EdgeOp V) (sl : HACK_Scanline V) : HACK_Scanline V :=
  if o.vert then verticalUpdate o.x o.z o.w sl else generalUpdate o.x o.z o.w sl

/-- Run a list of row updates on the state, first to last. -/
def applyEdgeOps {V P : Type} (ops : List (EdgeOp V)) (s : HACK_State V P) : HACK_State V P :=
  ops.foldl (fun s o => touch o.idx o.apply s) s

/-- Run a list of row updates on one slot, first to last. -/
def rowRun {V : Type} (ops : List (EdgeOp V)) (sl : HACK_Scanline V) : HACK_Scanline V :=
  ops.foldl (fun sl o => o.apply sl) sl

/-- The row updates of one iteration of the edge loop, for the ordered pair `v1`, `v2`. -/
def pairOps {V : Type} (L : HACK_Lerp V) (ctx : HACK_Context) (bot : Int)
    (v1 v2 : HACK_vertex V) : List (EdgeOp V) :=
  let dy : ℚ := (v2.position.y - v1.position.y) * halfHeight ctx
  let dx : ℚ := (v2.position.x - v1.position.x) * halfWidth ctx
  let bottomY : Int := Int.ceil (v1.position.y * halfHeight ctx)
  let topY : Int := Int.ceil (v2.position.y * halfHeight ctx)
  if dy = 0 then []
  else (intRange bottomY (topY + 1 - bottomY).toNat).map (fun y =>
    { idx := y - bot
      vert := decide (dx = 0)
      x := if dx = 0 then verticalX (halfWidth ctx) v2
           else generalX (halfWidth ctx) (halfHeight ctx) v1 v2 y
      z := L.scalar v1.position.z v2.position.z (edgeLerpVal (halfHeight ctx) v1 v2 y)
      w := L.varying v1.varying v2.varying (edgeLerpVal (halfHeight ctx) v1 v2 y) })

/-- The pairs `(v1, v2)` bound by the iterations `i = 0, 1, 2` of the edge loop, after the
swap of each iteration. -/
def walkedPairs {V : Type} (a : VertexArray V) : List (HACK_vertex V × HACK_vertex V) :=
  let a0 := orderEdge a 0
  let a1 := orderEdge a0 1
  let a2 := orderEdge a1 2
  [(a0.get 0, a0.get 1), (a1.get 1, a1.get 2), (a2.get 2, a2.get 0)]

/-- All row updates of the edge walk of one triangle, in program order. -/
def edgeOps {V : Type} (L : HACK_Lerp V) (ctx : HACK_Context) (a : VertexArray V) :
    List (EdgeOp V) :=
  (walkedPairs a).flatMap (fun p => pairOps L ctx (bottomScanY ctx a) p.1 p.2)

/-- Every column the edge walk computes for this triangle is a representable `int`. -/
def XRepresentable {V : Type} (L : HACK_Lerp V) (ctx : HACK_Context) (a : VertexArray V) :
    Prop :=
  ∀ o ∈ edgeOps L ctx a, INT_MIN ≤ o.x ∧ o.x ≤ INT_MAX

/-! ## The shading loop as a list of fragment-shader invocations -/

/-- The invocation made for pixel `j` of slot `i` holding `scanline` (lines 198-206). -/
def pixelCall {V P U : Type} (L : HACK_Lerp V) (ctx : HACK_Context) (bot : Int)
    (uniforms : U) (fragmentShader : V → U → P) (i : Int) (scanline : HACK_Scanline V)
    (j : Int) : FragmentCall V P :=
  let lerpVal := fdiv ((j - scanline.leftX : Int) : ℚ) ((scanline.rightX - scanline.leftX : Int) : ℚ)
  let lerpedVarying := L.varying scanline.leftVarying scanline.rightVarying lerpVal
  { varying := lerpedVarying
    pixelX := j + halfWidth ctx
    pixelY := i + bot + halfHeight ctx
    pixelZ := L.scalar scanline.leftZ scanline.rightZ lerpVal
    output := fragmentShader lerpedVarying uniforms }

/-- The invocations made for slot `i` holding `scanline`, in order. -/
def rowCalls {V P U : Type} (L : HACK_Lerp V) (ctx : HACK_Context) (bot : Int)
    (uniforms : U) (fragmentShader : V → U → P) (i : Int) (scanline : HACK_Scanline V) :
    List (FragmentCall V P) :=
  (intRange scanline.leftX (scanline.rightX + 1 - scanline.leftX).toNat).map
    (pixelCall L ctx bot uniforms fragmentShader i scanline)

/-- The invocations made by the shading loop over the slots `0 .. n-1` of the buffer
`B`, in order. -/
def shadeCalls {V P U : Type} (L : HACK_Lerp V) (ctx : HACK_Context) (bot : Int)
    (uniforms : U) (fragmentShader : V → U → P) (n : Int) (B : Int → HACK_Scanline V) :
    List (FragmentCall V P) :=
  (intRange 0 n.toNat).flatMap
    (fun i => rowCalls L ctx bot uniforms fragmentShader i (B i))

/-- The pair `(i, j)` of slot index and pixel column an invocation was made for, recovered
from its pixel coordinates `pixelY = i + bottomScanY + halfHeight`,
`pixelX = j + halfWidth`. -/
def pixelPair {V P : Type} (ctx : HACK_Context) (bot : Int) (c : FragmentCall V P) :
    Int × Int :=
  (c.pixelY - bot - halfHeight ctx, c.pixelX - halfWidth ctx)

/-- Lexicographic order on pairs `(i, j)`: increasing `i`, and increasing `j` within a
row. -/
def pairBefore (p q : Int × Int) : Prop :=
  p.1 < q.1 ∨ (p.1 = q.1 ∧ p.2 < q.2)

/-! ## The column the specification assigns to an edge -/

/-- The x-value that an edge with endpoints `p`, `q` contributes at row `y` according to
the specification of the edge walker: the edge is taken from its lower to its higher
endpoint, contributes nothing when it is horizontal or when `y` is outside its row range,
contributes `ceil(x) * halfWidth` when it is vertical and the line equation otherwise. -/
def specEdgeX {V : Type} (ctx : HACK_Context) (p q : HACK_vertex V) (y : Int) : Option Int :=
  let lo := if p.position.y > q.position.y then q else p
  let hi := if p.position.y > q.position.y then p else q
  if lo.position.y = hi.position.y then none
  else if Int.ceil (lo.position.y * halfHeight ctx) ≤ y
      ∧ y ≤ Int.ceil (hi.position.y * halfHeight ctx) then
    some (if lo.position.x = hi.position.x then verticalX (halfWidth ctx) hi
          else generalX (halfWidth ctx) (halfHeight ctx) lo hi y)
  else none

/-- The x-values of the three edges `{v0,v1}`, `{v1,v2}`, `{v2,v0}` at row `y`. -/
def specColumns {V : Type} (ctx : HACK_Context) (a : VertexArray V) (y : Int) : List Int :=
  [specEdgeX ctx a.e0 a.e1 y, specEdgeX ctx a.e1 a.e2 y, specEdgeX ctx a.e2 a.e0 y].reduceOption

/-! ## Concrete inputs -/

/-- Linear interpolation of rationals, `a + (b - a) * t`.  For a non-finite parameter the
result is fixed to `0`. -/
def linearLerp : HACK_Lerp ℚ where
  varying := fun a b t => match t with
    | some t => a + (b - a) * t
    | none => 0
  scalar := fun a b t => match t with
    | some t => a + (b - a) * t
    | none => 0

/-- A vertex at `(x, y)` with depth `0` and a rational varying `w`. -/
def vertexAt (x y w : ℚ) : HACK_vertex ℚ :=
  { position := { x := x, y := y, z := 0 }, varying := w }

/-- A state whose scanline slots all hold `leftX = l`, `rightX = r` and zero attributes,
with empty logs. -/
def constState (l r : Int) : HACK_State ℚ Unit :=
  { scanlines := fun _ => { leftX := l, rightX := r, leftZ := 0, rightZ := 0,
                            leftVarying := 0, rightVarying := 0 }
    vertexCalls := []
    fragmentCalls := []
    scanlineAccesses := [] }

/-- An 8 x 8 raster. -/
def ctx8 : HACK_Context := { width := 8, height := 8 }

/-- A triangle inside the viewport whose first vertex is the highest:
`(0, 1)`, `(-1, -1)`, `(1, 0)`. -/
def topFirstTriangle : VertexArray ℚ :=
  { e0 := vertexAt 0 1 1, e1 := vertexAt (-1) (-1) 2, e2 := vertexAt 1 0 3 }

/-- A triangle inside the viewport whose left edge is vertical, listed bottom to top:
`(-1, -1)`, `(1, 0)`, `(-1, 1)`. -/
def verticalEdgeTriangle : VertexArray ℚ :=
  { e0 := vertexAt (-1) (-1) 1, e1 := vertexAt 1 0 3, e2 := vertexAt (-1) 1 2 }

/-- A fully degenerate triangle: three vertices at `(1/2, 1/2)`. -/
def pointTriangle : VertexArray ℚ :=
  { e0 := vertexAt (1 / 2) (1 / 2) 1, e1 := vertexAt (1 / 2) (1 / 2) 2,
    e2 := vertexAt (1 / 2) (1 / 2) 3 }

/-- The attribute array holding the vertices of `topFirstTriangle` at the indices
`0`, `1`, `2` (the vertex shader of the examples is the identity on attributes). -/
def exampleAttributes (i : Int) : HACK_vertex ℚ :=
  if i = 0 then topFirstTriangle.e0 else if i = 1 then topFirstTriangle.e1
  else topFirstTriangle.e2

/-- An 8 x 1 raster: `halfHeight` is `0`. -/
def ctxFlat : HACK_Context := { width := 8, height := 1 }

/-! ## One side of a scanline

The left fields `(leftX, leftZ, leftVarying)` and the right fields of a slot evolve
independently, in the same way up to exchanging `min` and `max`. -/

/-- The left fields of a slot: the extent and the attributes stored with it. -/
def leftSide {V : Type} (sl : HACK_Scanline V) : Int × ℚ × V :=
  (sl.leftX, sl.leftZ, sl.leftVarying)

/-- The right fields of a slot. -/
def rightSide {V : Type} (sl : HACK_Scanline V) : Int × ℚ × V :=
  (sl.rightX, sl.rightZ, sl.rightVarying)

/-- The effect of one row update on one side, `m` being `min` (left) or `max` (right): the
extent is widened, and the attributes are overwritten when the edge is vertical or when
its column equals the widened extent. -/
def sideStep {V : Type} (m : Int → Int → Int) (o : EdgeOp V) (st : Int × ℚ × V) :
    Int × ℚ × V :=
  (m st.1 o.x, if o.vert = true ∨ o.x = m st.1 o.x then (o.z, o.w) else st.2)

/-- Run a list of row updates on one side. -/
def sideRun {V : Type} (m : Int → Int → Int) (ops : List (EdgeOp V)) (st : Int × ℚ × V) :
    Int × ℚ × V :=
  ops.foldl (fun st o => sideStep m o st) st

/-- The extent of one side after a list of row updates. -/
def sideExtent {V : Type} (m : Int → Int → Int) (ops : List (EdgeOp V)) (x : Int) : Int :=
  ops.foldl (fun x o => m x o.x) x

/-- The properties of `min` and of `max` the side lemmas use. -/
structure Widening (m : Int → Int → Int) : Prop where
  assoc : ∀ a b c, m (m a b) c = m a (m b c)
  comm : ∀ a b, m a b = m b a
  idem : ∀ a, m a a = a
  choice : ∀ a b, m a b = a ∨ m a b = b

/-! ## More concrete inputs -/

/-- A vertex at `(x, y)` with depth `z` and a rational varying `w`. -/
def vertexAtDepth (x y z w : ℚ) : HACK_vertex ℚ :=
  { position := { x := x, y := y, z := z }, varying := w }

/-- The vertices of `topFirstTriangle` listed bottom to top:
`(-1, -1)`, `(1, 0)`, `(0, 1)`. -/
def bottomFirstTriangle : VertexArray ℚ :=
  { e0 := topFirstTriangle.e1, e1 := topFirstTriangle.e2, e2 := topFirstTriangle.e0 }

/-- A triangle inside the viewport whose right edge is vertical at `x = 1/2`, listed
bottom to top: `(1/2, -1)`, `(-1, 0)`, `(1/2, 1)`. -/
def halfColumnTriangle : VertexArray ℚ :=
  { e0 := vertexAt (1 / 2) (-1) 1, e1 := vertexAt (-1) 0 3, e2 := vertexAt (1 / 2) 1 2 }

/-- A triangle inside the viewport, without a vertical or horizontal edge, listed bottom
to top, whose lowest edge is shallow: `(-1, 0)`, `(1, 1/40)`, `(0, 1)` with depths
`0`, `1`, `0`. -/
def shallowEdgeTriangle : VertexArray ℚ :=
  { e0 := vertexAtDepth (-1) 0 0 1, e1 := vertexAtDepth 1 (1 / 40) 1 2,
    e2 := vertexAtDepth 0 1 0 3 }

/-! ## Basic facts about the loops and the logs -/

theorem forLoop_preserve {σ β : Type} (g : σ → β) (body : Int → σ → σ)
    (h : ∀ i s, g (body i s) = g s) (n : Nat) (lo : Int) (s : σ) :
    g (forLoop body n lo s) = g s := by
  induction n generalizing lo s with
  | zero => rfl
  | succ n ih => rw [forLoop, ih, h]

theorem forLoop_eq_foldl {σ : Type} (body : Int → σ → σ) (n : Nat) (lo : Int) (s : σ) :
    forLoop body n lo s = (intRange lo n).foldl (fun s y => body y s) s := by
  induction n generalizing lo s with
  | zero => rfl
  | succ n ih => rw [forLoop, ih, intRange, List.foldl_cons]

theorem mem_intRange (lo : Int) (n : Nat) (y : Int) :
    y ∈ intRange lo n ↔ lo ≤ y ∧ y < lo + n := by
  induction n generalizing lo with
  | zero => simp [intRange]
  | succ n ih =>
    rw [intRange, List.mem_cons, ih]
    push_cast
    omega

theorem applyEdgeOps_append {V P : Type} (o1 o2 : List (EdgeOp V)) (s : HACK_State V P) :
    applyEdgeOps (o1 ++ o2) s = applyEdgeOps o2 (applyEdgeOps o1 s) := by
  simp [applyEdgeOps, List.foldl_append]

theorem applyEdgeOps_nil {V P : Type} (s : HACK_State V P) :
    applyEdgeOps ([] : List (EdgeOp V)) s = s := rfl

theorem applyEdgeOps_cons {V P : Type} (o : EdgeOp V) (ops : List (EdgeOp V))
    (s : HACK_State V P) :
    applyEdgeOps (o :: ops) s = applyEdgeOps ops (touch o.idx o.apply s) := rfl

theorem applyEdgeOps_vertexCalls {V P : Type} (ops : List (EdgeOp V)) (s : HACK_State V P) :
    (applyEdgeOps ops s).vertexCalls = s.vertexCalls := by
  induction ops generalizing s with
  | nil => rfl
  | cons o ops ih => rw [applyEdgeOps_cons, ih]; rfl

theorem applyEdgeOps_fragmentCalls {V P : Type} (ops : List (EdgeOp V))
    (s : HACK_State V P) :
    (applyEdgeOps ops s).fragmentCalls = s.fragmentCalls := by
  induction ops generalizing s with
  | nil => rfl
  | cons o ops ih => rw [applyEdgeOps_cons, ih]; rfl

theorem applyEdgeOps_scanlineAccesses {V P : Type} (ops : List (EdgeOp V))
    (s : HACK_State V P) :
    (applyEdgeOps ops s).scanlineAccesses = s.scanlineAccesses ++ ops.map (fun o => o.idx) := by
  induction ops generalizing s with
  | nil => simp [applyEdgeOps_nil]
  | cons o ops ih => rw [applyEdgeOps_cons, ih]; simp [touch]

theorem applyEdgeOps_scanlines {V P : Type} (ops : List (EdgeOp V)) (s : HACK_State V P)
    (i : Int) :
    (applyEdgeOps ops s).scanlines i
      = rowRun (ops.filter (fun o => decide (o.idx = i))) (s.scanlines i) := by
  induction ops generalizing s with
  | nil => rfl
  | cons o ops ih =>
    rw [applyEdgeOps_cons, ih]
    by_cases h : o.idx = i
    · subst h
      simp [touch, rowRun]
    · have h2 : i ≠ o.idx := fun e => h e.symm
      simp [touch, rowRun, h, Function.update_noteq h2]

theorem walkEdge_eq {V P : Type} (L : HACK_Lerp V) (ctx : HACK_Context) (bot : Int)
    (i : Nat) (a : VertexArray V) (s : HACK_State V P) :
    walkEdge L ctx bot i (a, s)
      = (orderEdge a i,
         applyEdgeOps (pairOps L ctx bot ((orderEdge a i).get i)
           ((orderEdge a i).get (if i = 2 then 0 else i + 1))) s) := by
  unfold walkEdge pairOps
  simp only
  by_cases hdy : ((((orderEdge a i).get (if i = 2 then 0 else i + 1)).position.y
      - ((orderEdge a i).get i).position.y) * (halfHeight ctx : ℚ)) = 0
  · rw [if_pos hdy, if_pos hdy]
    rfl
  · rw [if_neg hdy, if_neg hdy]
    by_cases hdx : ((((orderEdge a i).get (if i = 2 then 0 else i + 1)).position.x
        - ((orderEdge a i).get i).position.x) * (halfWidth ctx : ℚ)) = 0
    · rw [if_pos hdx, forLoop_eq_foldl, applyEdgeOps, List.foldl_map]
      simp only [hdx, decide_True, if_true]
      rfl
    · rw [if_neg hdx, forLoop_eq_foldl, applyEdgeOps, List.foldl_map]
      simp only [hdx, decide_False, if_false]
      rfl

theorem edgeWalk_eq {V P : Type} (L : HACK_Lerp V) (ctx : HACK_Context) (a : VertexArray V)
    (s : HACK_State V P) :
    edgeWalk L ctx a s
      = (orderEdge (orderEdge (orderEdge a 0) 1) 2,
         applyEdgeOps (edgeOps L ctx a) (resetScanlines (scanlineNum ctx a) s)) := by
  unfold edgeWalk walkEdges edgeOps walkedPairs
  rw [walkEdge_eq, walkEdge_eq, walkEdge_eq]
  simp [List.flatMap, applyEdgeOps_append]

theorem resetScanlines_vertexCalls {V P : Type} (n : Int) (s : HACK_State V P) :
    (resetScanlines n s).vertexCalls = s.vertexCalls := by
  unfold resetScanlines
  apply forLoop_preserve (fun s : HACK_State V P => s.vertexCalls)
  intro i s
  rfl

theorem resetScanlines_fragmentCalls {V P : Type} (n : Int) (s : HACK_State V P) :
    (resetScanlines n s).fragmentCalls = s.fragmentCalls := by
  unfold resetScanlines
  apply forLoop_preserve (fun s : HACK_State V P => s.fragmentCalls)
  intro i s
  rfl

theorem edgeWalk_vertexCalls {V P : Type} (L : HACK_Lerp V) (ctx : HACK_Context)
    (a : VertexArray V) (s : HACK_State V P) :
    (edgeWalk L ctx a s).2.vertexCalls = s.vertexCalls := by
  rw [edgeWalk_eq, applyEdgeOps_vertexCalls, resetScanlines_vertexCalls]

theorem edgeWalk_fragmentCalls {V P : Type} (L : HACK_Lerp V) (ctx : HACK_Context)
    (a : VertexArray V) (s : HACK_State V P) :
    (edgeWalk L ctx a s).2.fragmentCalls = s.fragmentCalls := by
  rw [edgeWalk_eq, applyEdgeOps_fragmentCalls, resetScanlines_fragmentCalls]

theorem shadeRow_vertexCalls {V P U : Type} (L : HACK_Lerp V) (ctx : HACK_Context)
    (bot : Int) (uniforms : U) (fragmentShader : V → U → P) (i : Int)
    (s : HACK_State V P) :
    (shadeRow L ctx bot uniforms fragmentShader i s).vertexCalls = s.vertexCalls := by
  unfold shadeRow
  simp only
  rw [forLoop_preserve (fun s : HACK_State V P => s.vertexCalls)]
  intro i s
  rfl

theorem rasterizeVertices_vertexCalls {V P U : Type} (L : HACK_Lerp V) (ctx : HACK_Context)
    (uniforms : U) (fragmentShader : V → U → P) (a : VertexArray V)
    (s : HACK_State V P) :
    (rasterizeVertices L ctx uniforms fragmentShader a s).vertexCalls = s.vertexCalls := by
  unfold rasterizeVertices shadeScanlines
  rw [forLoop_preserve (fun s : HACK_State V P => s.vertexCalls) _
    (fun i s => shadeRow_vertexCalls L ctx _ uniforms fragmentShader i s)]
  exact edgeWalk_vertexCalls L ctx a s

theorem HACK_rasterize_triangle_vertexCalls {A V P U : Type} (L : HACK_Lerp V)
    (ctx : HACK_Context) (triangleId : Int) (polygonAttributes : Int → A) (uniforms : U)
    (vertexShader : A → U → HACK_vertex V) (fragmentShader : V → U → P)
    (s : HACK_State V P) :
    (__HACK_rasterize_triangle L ctx triangleId polygonAttributes uniforms vertexShader
      fragmentShader s).vertexCalls
      = s.vertexCalls ++ [triangleId, triangleId + 1, triangleId + 2] := by
  unfold __HACK_rasterize_triangle
  simp only [rasterizeVertices_vertexCalls]

theorem trianglesLoop_multiple {σ : Type} (body : Int → σ → σ) (m k : Nat) (s : σ) :
    trianglesLoop (3 * ((k + m : Nat) : Int)) body (3 * (k : Int)) s
      = (List.range' k m).foldl (fun (s : σ) (j : Nat) => body (3 * (j : Int)) s) s := by
  induction m generalizing k s with
  | zero =>
    rw [trianglesLoop]
    simp
  | succ m ih =>
    rw [trianglesLoop]
    have h1 : (3 * (k : Int)) < 3 * ((k + (m + 1) : Nat) : Int) := by push_cast; omega
    rw [if_pos h1]
    have h2 : (3 * (k : Int)) + 3 = 3 * ((k + 1 : Nat) : Int) := by push_cast; ring
    have h3 : k + (m + 1) = (k + 1) + m := by omega
    rw [h2, h3, ih, List.range'_succ, List.foldl_cons]

/-! ## The shading loop -/

theorem foldl_log {σ β : Type} (g : σ → List β) (body : Int → σ → σ) (c : Int → List β)
    (I : σ → Prop) (hI : ∀ y s, I s → I (body y s))
    (h : ∀ y s, I s → g (body y s) = g s ++ c y) (l : List Int) (s : σ) (hs : I s) :
    g (l.foldl (fun s y => body y s) s) = g s ++ l.flatMap c := by
  induction l generalizing s with
  | nil => simp
  | cons y l ih =>
    rw [List.foldl_cons, ih _ (hI y s hs), h y s hs]
    simp [List.flatMap_cons]

theorem shadeRow_scanlines {V P U : Type} (L : HACK_Lerp V) (ctx : HACK_Context)
    (bot : Int) (uniforms : U) (fragmentShader : V → U → P) (i : Int)
    (s : HACK_State V P) :
    (shadeRow L ctx bot uniforms fragmentShader i s).scanlines = s.scanlines := by
  unfold shadeRow
  simp only
  rw [forLoop_preserve (fun s : HACK_State V P => s.scanlines)]
  intro i s
  rfl

theorem shadeRow_fragmentCalls {V P U : Type} (L : HACK_Lerp V) (ctx : HACK_Context)
    (bot : Int) (uniforms : U) (fragmentShader : V → U → P) (i : Int)
    (s : HACK_State V P) :
    (shadeRow L ctx bot uniforms fragmentShader i s).fragmentCalls
      = s.fragmentCalls ++ rowCalls L ctx bot uniforms fragmentShader i (s.scanlines i) := by
  unfold shadeRow rowCalls
  simp only
  rw [forLoop_eq_foldl]
  rw [foldl_log (fun s : HACK_State V P => s.fragmentCalls) _
    (fun j => [pixelCall L ctx bot uniforms fragmentShader i (s.scanlines i) j])
    (fun _ => True) (fun _ _ _ => trivial) (fun _ _ _ => rfl) _ _ trivial]
  congr 1
  generalize intRange _ _ = l
  induction l with
  | nil => rfl
  | cons j l ih => rw [List.flatMap_cons, List.map_cons, ih]; rfl

theorem shadeScanlines_scanlines {V P U : Type} (L : HACK_Lerp V) (ctx : HACK_Context)
    (bot : Int) (uniforms : U) (fragmentShader : V → U → P) (n : Int)
    (s : HACK_State V P) :
    (shadeScanlines L ctx bot uniforms fragmentShader n s).scanlines = s.scanlines := by
  unfold shadeScanlines
  rw [forLoop_preserve (fun s : HACK_State V P => s.scanlines)]
  intro i s
  exact shadeRow_scanlines L ctx bot uniforms fragmentShader i s

theorem shadeScanlines_fragmentCalls {V P U : Type} (L : HACK_Lerp V) (ctx : HACK_Context)
    (bot : Int) (uniforms : U) (fragmentShader : V → U → P) (n : Int)
    (s : HACK_State V P) :
    (shadeScanlines L ctx bot uniforms fragmentShader n s).fragmentCalls
      = s.fragmentCalls ++ shadeCalls L ctx bot uniforms fragmentShader n s.scanlines := by
  unfold shadeScanlines shadeCalls
  rw [forLoop_eq_foldl]
  exact foldl_log (fun s : HACK_State V P => s.fragmentCalls) _
    (fun i => rowCalls L ctx bot uniforms fragmentShader i (s.scanlines i))
    (fun t => t.scanlines = s.scanlines)
    (fun i t ht => (shadeRow_scanlines L ctx bot uniforms fragmentShader i t).trans ht)
    (fun i t ht => by
      show (shadeRow L ctx bot uniforms fragmentShader i t).fragmentCalls = _
      rw [shadeRow_fragmentCalls, ht]) _ _ rfl

theorem rasterizeVertices_scanlines {V P U : Type} (L : HACK_Lerp V) (ctx : HACK_Context)
    (uniforms : U) (fragmentShader : V → U → P) (a : VertexArray V) (s : HACK_State V P) :
    (rasterizeVertices L ctx uniforms fragmentShader a s).scanlines
      = (edgeWalk L ctx a s).2.scanlines := by
  unfold rasterizeVertices
  rw [shadeScanlines_scanlines]

theorem rasterizeVertices_fragmentCalls {V P U : Type} (L : HACK_Lerp V)
    (ctx : HACK_Context) (uniforms : U) (fragmentShader : V → U → P) (a : VertexArray V)
    (s : HACK_State V P) :
    (rasterizeVertices L ctx uniforms fragmentShader a s).fragmentCalls
      = s.fragmentCalls ++ shadeCalls L ctx (bottomScanY ctx a) uniforms fragmentShader
          (scanlineNum ctx a) (edgeWalk L ctx a s).2.scanlines := by
  unfold rasterizeVertices
  rw [shadeScanlines_fragmentCalls, edgeWalk_fragmentCalls]

theorem intRange_pairwise (lo : Int) (n : Nat) :
    (intRange lo n).Pairwise (fun a b => a < b) := by
  induction n generalizing lo with
  | zero => simp [intRange]
  | succ n ih =>
    rw [intRange, List.pairwise_cons]
    refine ⟨fun b hb => ?_, ih _⟩
    rw [mem_intRange] at hb
    omega

theorem shadeCalls_pairs {V P U : Type} (L : HACK_Lerp V) (ctx : HACK_Context) (bot : Int)
    (uniforms : U) (fragmentShader : V → U → P) (n : Int) (B : Int → HACK_Scanline V) :
    (shadeCalls L ctx bot uniforms fragmentShader n B).map (pixelPair ctx bot)
      = (intRange 0 n.toNat).flatMap (fun i =>
          (intRange (B i).leftX ((B i).rightX + 1 - (B i).leftX).toNat).map
            (fun j => (i, j))) := by
  unfold shadeCalls rowCalls
  rw [List.map_flatMap]
  congr 1
  funext i
  rw [List.map_map]
  congr 1
  funext j
  simp only [pixelPair, pixelCall, Function.comp, Prod.mk.injEq]
  constructor <;> omega

theorem mem_shadeCalls_pairs {V P U : Type} (L : HACK_Lerp V) (ctx : HACK_Context)
    (bot : Int) (uniforms : U) (fragmentShader : V → U → P) (n : Int)
    (B : Int → HACK_Scanline V) (i j : Int) :
    (i, j) ∈ (shadeCalls L ctx bot uniforms fragmentShader n B).map (pixelPair ctx bot)
      ↔ 0 ≤ i ∧ i < n ∧ (B i).leftX ≤ j ∧ j ≤ (B i).rightX := by
  rw [shadeCalls_pairs]
  simp only [List.mem_flatMap, List.mem_map, mem_intRange, Prod.mk.injEq]
  constructor
  · rintro ⟨i', ⟨h1, h2⟩, j', ⟨h3, h4⟩, rfl, rfl⟩
    omega
  · rintro ⟨h1, h2, h3, h4⟩
    exact ⟨i, ⟨by omega, by omega⟩, j, ⟨by omega, by omega⟩, rfl, rfl⟩

theorem shadeCalls_pairs_sorted {V P U : Type} (L : HACK_Lerp V) (ctx : HACK_Context)
    (bot : Int) (uniforms : U) (fragmentShader : V → U → P) (n : Int)
    (B : Int → HACK_Scanline V) :
    ((shadeCalls L ctx bot uniforms fragmentShader n B).map (pixelPair ctx bot)).Pairwise
      pairBefore := by
  rw [shadeCalls_pairs, List.pairwise_flatMap]
  constructor
  · intro i _
    rw [List.pairwise_map]
    exact (intRange_pairwise _ _).imp (fun h => Or.inr ⟨rfl, h⟩)
  · refine (intRange_pairwise 0 n.toNat).imp ?_
    intro i1 i2 h p hp q hq
    rw [List.mem_map] at hp hq
    obtain ⟨_, _, rfl⟩ := hp
    obtain ⟨_, _, rfl⟩ := hq
    exact Or.inl h

/-! ## The scanline buffer after the reset and after the edge walk -/

theorem foldl_touch_scanlines {V P : Type} (f : HACK_Scanline V → HACK_Scanline V)
    (hf : ∀ sl, f (f sl) = f sl) (l : List Int) (s : HACK_State V P) (i : Int) :
    (l.foldl (fun s y => touch y f s) s).scanlines i
      = if i ∈ l then f (s.scanlines i) else s.scanlines i := by
  induction l generalizing s with
  | nil => simp
  | cons y l ih =>
    rw [List.foldl_cons, ih]
    by_cases h : i = y
    · subst h
      simp [touch, hf]
    · have h2 : ¬ y = i := fun e => h e.symm
      simp [touch, h, Function.update_noteq h]

theorem resetScanlines_scanlines {V P : Type} (n : Int) (s : HACK_State V P) (i : Int) :
    (resetScanlines n s).scanlines i
      = if 0 ≤ i ∧ i < n then resetUpdate (s.scanlines i) else s.scanlines i := by
  unfold resetScanlines
  rw [forLoop_eq_foldl, foldl_touch_scanlines resetUpdate (fun _ => rfl)]
  have h : i ∈ intRange 0 n.toNat ↔ 0 ≤ i ∧ i < n := by
    rw [mem_intRange]
    omega
  simp only [h]

theorem edgeWalk_scanlines {V P : Type} (L : HACK_Lerp V) (ctx : HACK_Context)
    (a : VertexArray V) (s : HACK_State V P) (i : Int) :
    (edgeWalk L ctx a s).2.scanlines i
      = rowRun ((edgeOps L ctx a).filter (fun o => decide (o.idx = i)))
          (if 0 ≤ i ∧ i < scanlineNum ctx a then resetUpdate (s.scanlines i)
           else s.scanlines i) := by
  rw [edgeWalk_eq, applyEdgeOps_scanlines, resetScanlines_scanlines]

theorem rowRun_cons {V : Type} (o : EdgeOp V) (ops : List (EdgeOp V))
    (sl : HACK_Scanline V) : rowRun (o :: ops) sl = rowRun ops (o.apply sl) := rfl

theorem rowRun_concat {V : Type} (o : EdgeOp V) (ops : List (EdgeOp V))
    (sl : HACK_Scanline V) : rowRun (ops ++ [o]) sl = o.apply (rowRun ops sl) := by
  simp [rowRun, List.foldl_append]

theorem apply_leftX_le_rightX {V : Type} (o : EdgeOp V) (sl : HACK_Scanline V) :
    (o.apply sl).leftX ≤ (o.apply sl).rightX := by
  unfold EdgeOp.apply
  split_ifs
  · exact le_trans (min_le_right _ _) (le_max_right _ _)
  · exact le_trans (min_le_right _ _) (le_max_right _ _)

theorem rowRun_leftX_le_rightX {V : Type} (ops : List (EdgeOp V)) (h : ops ≠ [])
    (sl : HACK_Scanline V) : (rowRun ops sl).leftX ≤ (rowRun ops sl).rightX := by
  rcases List.eq_nil_or_concat ops with h0 | ⟨r, o, rfl⟩
  · exact absurd h0 h
  · rw [List.concat_eq_append, rowRun_concat]
    exact apply_leftX_le_rightX o _

/-- The first row update after a reset determines all six fields of the slot, when its
column is a representable `int`. -/
theorem apply_resetUpdate {V : Type} (o : EdgeOp V) (h1 : INT_MIN ≤ o.x) (h2 : o.x ≤ INT_MAX)
    (sl sl' : HACK_Scanline V) :
    o.apply (resetUpdate sl) = o.apply (resetUpdate sl') := by
  unfold EdgeOp.apply
  split_ifs
  · rfl
  · have e1 : min INT_MAX o.x = o.x := min_eq_right h2
    have e2 : max INT_MIN o.x = o.x := max_eq_right h1
    simp [generalUpdate, resetUpdate, e1, e2]

theorem rowCalls_resetUpdate {V P U : Type} (L : HACK_Lerp V) (ctx : HACK_Context)
    (bot : Int) (uniforms : U) (fragmentShader : V → U → P) (i : Int)
    (sl : HACK_Scanline V) :
    rowCalls L ctx bot uniforms fragmentShader i (resetUpdate sl) = [] := by
  simp [rowCalls, resetUpdate, INT_MAX, INT_MIN, intRange]

theorem shadeCalls_congr {V P U : Type} (L : HACK_Lerp V) (ctx : HACK_Context) (bot : Int)
    (uniforms : U) (fragmentShader : V → U → P) (n : Int) (B B' : Int → HACK_Scanline V)
    (h : ∀ i, 0 ≤ i → i < n →
      rowCalls L ctx bot uniforms fragmentShader i (B i)
        = rowCalls L ctx bot uniforms fragmentShader i (B' i)) :
    shadeCalls L ctx bot uniforms fragmentShader n B
      = shadeCalls L ctx bot uniforms fragmentShader n B' := by
  unfold shadeCalls
  have key : ∀ l : List Int, (∀ i ∈ l, 0 ≤ i ∧ i < n) →
      l.flatMap (fun i => rowCalls L ctx bot uniforms fragmentShader i (B i))
        = l.flatMap (fun i => rowCalls L ctx bot uniforms fragmentShader i (B' i)) := by
    intro l
    induction l with
    | nil => intro _; rfl
    | cons i l ih =>
      intro hl
      rw [List.flatMap_cons, List.flatMap_cons, ih (fun j hj => hl j (List.mem_cons_of_mem _ hj)),
        h i (hl i (List.mem_cons_self _ _)).1 (hl i (List.mem_cons_self _ _)).2]
  apply key
  intro i hi
  rw [mem_intRange] at hi
  omega

/-- Two initial buffers give the same invocations: a slot of the shaded range is either
untouched by the edge walk, hence an empty span, or fully rewritten by its first update. -/
theorem shadeCalls_edgeWalk_buffer {V P U : Type} (L : HACK_Lerp V) (ctx : HACK_Context)
    (uniforms : U) (fragmentShader : V → U → P) (a : VertexArray V)
    (hrep : XRepresentable L ctx a) (s s' : HACK_State V P) :
    shadeCalls L ctx (bottomScanY ctx a) uniforms fragmentShader (scanlineNum ctx a)
        (edgeWalk L ctx a s).2.scanlines
      = shadeCalls L ctx (bottomScanY ctx a) uniforms fragmentShader (scanlineNum ctx a)
        (edgeWalk L ctx a s').2.scanlines := by
  apply shadeCalls_congr
  intro i h0 hn
  rw [edgeWalk_scanlines, edgeWalk_scanlines, if_pos ⟨h0, hn⟩, if_pos ⟨h0, hn⟩]
  cases hops : (edgeOps L ctx a).filter (fun o => decide (o.idx = i)) with
  | nil =>
    show rowCalls L ctx _ uniforms fragmentShader i (resetUpdate _)
      = rowCalls L ctx _ uniforms fragmentShader i (resetUpdate _)
    rw [rowCalls_resetUpdate, rowCalls_resetUpdate]
  | cons o r =>
    have ho : o ∈ edgeOps L ctx a := by
      have : o ∈ (edgeOps L ctx a).filter (fun o => decide (o.idx = i)) := by
        rw [hops]; exact List.mem_cons_self _ _
      exact (List.mem_filter.mp this).1
    rw [rowRun_cons, rowRun_cons,
      apply_resetUpdate o (hrep o ho).1 (hrep o ho).2 (s.scanlines i) (s'.scanlines i)]

/-! ## Which rows the edge walk touches -/

theorem pairOps_covers {V : Type} (L : HACK_Lerp V) (ctx : HACK_Context) (bot : Int)
    (v1 v2 : HACK_vertex V)
    (hdy : (v2.position.y - v1.position.y) * (halfHeight ctx : ℚ) ≠ 0) (y : Int)
    (h1 : Int.ceil (v1.position.y * halfHeight ctx) ≤ y)
    (h2 : y ≤ Int.ceil (v2.position.y * halfHeight ctx)) :
    ∃ o ∈ pairOps L ctx bot v1 v2, o.idx = y - bot := by
  unfold pairOps
  simp only
  rw [if_neg hdy]
  refine ⟨_, List.mem_map.mpr ⟨y, ?_, rfl⟩, rfl⟩
  rw [mem_intRange]
  omega

/-- With a positive `halfHeight` and three distinct `y`, one iteration of the edge loop
walks the edge from the lowest to the highest vertex, whatever the swaps did before. -/
theorem long_edge_walked {V : Type} (ctx : HACK_Context) (a : VertexArray V)
    (hh : 0 < halfHeight ctx)
    (h01 : a.e0.position.y ≠ a.e1.position.y) (h12 : a.e1.position.y ≠ a.e2.position.y)
    (h20 : a.e2.position.y ≠ a.e0.position.y) :
    ∃ p ∈ walkedPairs a,
      Int.ceil (p.1.position.y * halfHeight ctx) = bottomScanY ctx a
        ∧ Int.ceil (p.2.position.y * halfHeight ctx) = topScanY ctx a
        ∧ (p.2.position.y - p.1.position.y) * (halfHeight ctx : ℚ) ≠ 0 := by
  have hq : (0 : ℚ) < (halfHeight ctx : ℚ) := by exact_mod_cast hh
  have hne : ((halfHeight ctx : ℤ) : ℚ) ≠ 0 := ne_of_gt hq
  have mono : ∀ u v : ℚ, u < v → u * (halfHeight ctx : ℚ) < v * (halfHeight ctx : ℚ) :=
    fun u v h => mul_lt_mul_of_pos_right h hq
  unfold bottomScanY topScanY
  rcases lt_or_gt_of_ne h01 with c01 | c01
  · have m01 := mono _ _ c01
    rcases lt_or_gt_of_ne h12 with c12 | c12
    · have m12 := mono _ _ c12
      have c02 : a.e0.position.y < a.e2.position.y := lt_trans c01 c12
      refine ⟨(a.e0, a.e2), ?_, ?_, ?_, ?_⟩
      · simp [walkedPairs, orderEdge, VertexArray.get, VertexArray.set, not_lt_of_gt c01, not_lt_of_gt c12, c02]
      · congr 1
        simp only [min_def]
        split_ifs <;> linarith
      · congr 1
        simp only [max_def]
        split_ifs <;> linarith
      · exact mul_ne_zero (sub_ne_zero.mpr (ne_of_gt c02)) hne
    · have m12 := mono _ _ c12
      rcases lt_or_gt_of_ne h20 with c20 | c20
      · have m20 := mono _ _ c20
        refine ⟨(a.e2, a.e1), ?_, ?_, ?_, ?_⟩
        · simp [walkedPairs, orderEdge, VertexArray.get, VertexArray.set, not_lt_of_gt c01, c12]
        · congr 1
          simp only [min_def]
          split_ifs <;> linarith
        · congr 1
          simp only [max_def]
          split_ifs <;> linarith
        · exact mul_ne_zero (sub_ne_zero.mpr (ne_of_gt c12)) hne
      · have m20 := mono _ _ c20
        refine ⟨(a.e0, a.e1), ?_, ?_, ?_, ?_⟩
        · simp [walkedPairs, orderEdge, VertexArray.get, VertexArray.set, not_lt_of_gt c01, c12]
        · congr 1
          simp only [min_def]
          split_ifs <;> linarith
        · congr 1
          simp only [max_def]
          split_ifs <;> linarith
        · exact mul_ne_zero (sub_ne_zero.mpr (ne_of_gt c01)) hne
  · have m01 := mono _ _ c01
    rcases lt_or_gt_of_ne h12 with c12 | c12
    · have m12 := mono _ _ c12
      rcases lt_or_gt_of_ne h20 with c20 | c20
      · have m20 := mono _ _ c20
        refine ⟨(a.e1, a.e0), ?_, ?_, ?_, ?_⟩
        · simp [walkedPairs, orderEdge, VertexArray.get, VertexArray.set, c01, c20, not_lt_of_gt c20]
        · congr 1
          simp only [min_def]
          split_ifs <;> linarith
        · congr 1
          simp only [max_def]
          split_ifs <;> linarith
        · exact mul_ne_zero (sub_ne_zero.mpr (ne_of_gt c01)) hne
      · have m20 := mono _ _ c20
        refine ⟨(a.e1, a.e2), ?_, ?_, ?_, ?_⟩
        · simp [walkedPairs, orderEdge, VertexArray.get, VertexArray.set, c01, c12, not_lt_of_gt c20]
        · congr 1
          simp only [min_def]
          split_ifs <;> linarith
        · congr 1
          simp only [max_def]
          split_ifs <;> linarith
        · exact mul_ne_zero (sub_ne_zero.mpr (ne_of_gt c12)) hne
    · have m12 := mono _ _ c12
      have c20 : a.e2.position.y < a.e0.position.y := lt_trans c12 c01
      refine ⟨(a.e2, a.e0), ?_, ?_, ?_, ?_⟩
      · simp [walkedPairs, orderEdge, VertexArray.get, VertexArray.set, c01, c20, c12]
      · congr 1
        simp only [min_def]
        split_ifs <;> linarith
      · congr 1
        simp only [max_def]
        split_ifs <;> linarith
      · exact mul_ne_zero (sub_ne_zero.mpr (ne_of_gt c20)) hne

/-! ## Re-running the edge walk on its own result -/

theorem widening_min : Widening (fun a b : Int => min a b) :=
  ⟨fun a b c => min_assoc a b c, fun a b => min_comm a b, fun a => min_self a,
   fun a b => min_choice a b⟩

theorem widening_max : Widening (fun a b : Int => max a b) :=
  ⟨fun a b c => max_assoc a b c, fun a b => max_comm a b, fun a => max_self a,
   fun a b => max_choice a b⟩

theorem scanline_ext {V : Type} (sl sl' : HACK_Scanline V)
    (hl : leftSide sl = leftSide sl') (hr : rightSide sl = rightSide sl') : sl = sl' := by
  cases sl
  cases sl'
  simp only [leftSide, rightSide, Prod.mk.injEq] at hl hr
  obtain ⟨h1, h2, h3⟩ := hl
  obtain ⟨h4, h5, h6⟩ := hr
  subst h1 h2 h3 h4 h5 h6
  rfl

theorem leftSide_apply {V : Type} (o : EdgeOp V) (sl : HACK_Scanline V) :
    leftSide (o.apply sl) = sideStep (fun a b => min a b) o (leftSide sl) := by
  unfold EdgeOp.apply sideStep leftSide
  by_cases hv : o.vert = true
  · simp [hv, verticalUpdate]
  · by_cases hx : o.x = min sl.leftX o.x
    · simp [hv, generalUpdate, ← hx]
    · simp [hv, generalUpdate, hx]

theorem rightSide_apply {V : Type} (o : EdgeOp V) (sl : HACK_Scanline V) :
    rightSide (o.apply sl) = sideStep (fun a b => max a b) o (rightSide sl) := by
  unfold EdgeOp.apply sideStep rightSide
  by_cases hv : o.vert = true
  · simp [hv, verticalUpdate]
  · by_cases hx : o.x = max sl.rightX o.x
    · simp [hv, generalUpdate, ← hx]
    · simp [hv, generalUpdate, hx]

theorem leftSide_rowRun {V : Type} (ops : List (EdgeOp V)) (sl : HACK_Scanline V) :
    leftSide (rowRun ops sl) = sideRun (fun a b => min a b) ops (leftSide sl) := by
  induction ops generalizing sl with
  | nil => rfl
  | cons o ops ih => rw [rowRun_cons, ih, leftSide_apply]; rfl

theorem rightSide_rowRun {V : Type} (ops : List (EdgeOp V)) (sl : HACK_Scanline V) :
    rightSide (rowRun ops sl) = sideRun (fun a b => max a b) ops (rightSide sl) := by
  induction ops generalizing sl with
  | nil => rfl
  | cons o ops ih => rw [rowRun_cons, ih, rightSide_apply]; rfl

theorem sideRun_cons {V : Type} (m : Int → Int → Int) (o : EdgeOp V) (ops : List (EdgeOp V))
    (st : Int × ℚ × V) : sideRun m (o :: ops) st = sideRun m ops (sideStep m o st) := rfl

theorem sideExtent_cons {V : Type} (m : Int → Int → Int) (o : EdgeOp V)
    (ops : List (EdgeOp V)) (x : Int) :
    sideExtent m (o :: ops) x = sideExtent m ops (m x o.x) := rfl

theorem sideRun_fst {V : Type} (m : Int → Int → Int) (ops : List (EdgeOp V))
    (st : Int × ℚ × V) : (sideRun m ops st).1 = sideExtent m ops st.1 := by
  induction ops generalizing st with
  | nil => rfl
  | cons o ops ih => rw [sideRun_cons, ih, sideExtent_cons]; rfl

/-- The final extent absorbs the initial extent and every column of the list. -/
theorem sideExtent_absorbs {V : Type} (m : Int → Int → Int) (hm : Widening m)
    (ops : List (EdgeOp V)) (x : Int) :
    m (sideExtent m ops x) x = sideExtent m ops x
      ∧ ∀ o ∈ ops, m (sideExtent m ops x) o.x = sideExtent m ops x := by
  induction ops generalizing x with
  | nil => exact ⟨hm.idem x, fun o ho => absurd ho (List.not_mem_nil o)⟩
  | cons o ops ih =>
    rw [sideExtent_cons]
    obtain ⟨h1, h2⟩ := ih (m x o.x)
    have hx : m (sideExtent m ops (m x o.x)) x = sideExtent m ops (m x o.x) := by
      have e : m (m x o.x) x = m x o.x := by
        rw [hm.comm (m x o.x) x, ← hm.assoc, hm.idem]
      calc m (sideExtent m ops (m x o.x)) x
          = m (m (sideExtent m ops (m x o.x)) (m x o.x)) x := by rw [h1]
        _ = m (sideExtent m ops (m x o.x)) (m (m x o.x) x) := hm.assoc _ _ _
        _ = sideExtent m ops (m x o.x) := by rw [e, h1]
    have ho : m (sideExtent m ops (m x o.x)) o.x = sideExtent m ops (m x o.x) := by
      have e : m (m x o.x) o.x = m x o.x := by rw [hm.assoc, hm.idem]
      calc m (sideExtent m ops (m x o.x)) o.x
          = m (m (sideExtent m ops (m x o.x)) (m x o.x)) o.x := by rw [h1]
        _ = m (sideExtent m ops (m x o.x)) (m (m x o.x) o.x) := hm.assoc _ _ _
        _ = sideExtent m ops (m x o.x) := by rw [e, h1]
    refine ⟨hx, fun o' ho' => ?_⟩
    rcases List.mem_cons.mp ho' with rfl | h
    · exact ho
    · exact h2 o' h

/-- Two runs of the same updates, one from the final extent `M` and one from an extent
`x` that `M` absorbs: they end in the same state, unless no update overwrites the
attributes in either run, and then `x = M`. -/
theorem sideRun_from_final {V : Type} (m : Int → Int → Int) (hm : Widening m)
    (ops : List (EdgeOp V)) (M x : Int) (c c' : ℚ × V)
    (hM : sideExtent m ops x = M) (habs : ∀ o ∈ ops, m M o.x = M) (hx : m M x = M) :
    sideRun m ops (M, c') = sideRun m ops (x, c)
      ∨ (x = M ∧ sideRun m ops (M, c') = (M, c') ∧ sideRun m ops (x, c) = (x, c)) := by
  induction ops generalizing x c c' with
  | nil => exact Or.inr ⟨hM, rfl, rfl⟩
  | cons o ops ih =>
    have hMo : m M o.x = M := habs o (List.mem_cons_self _ _)
    have hx' : m M (m x o.x) = M := by rw [← hm.assoc, hx, hMo]
    rw [sideRun_cons, sideRun_cons]
    simp only [sideStep, hMo]
    rcases ih (m x o.x) (if o.vert = true ∨ o.x = m x o.x then (o.z, o.w) else c)
        (if o.vert = true ∨ o.x = M then (o.z, o.w) else c') hM
        (fun o' ho' => habs o' (List.mem_cons_of_mem _ ho')) hx' with h | ⟨h1, h2, h3⟩
    · exact Or.inl h
    · rw [h2, h3, h1]
      by_cases hw : o.vert = true ∨ o.x = M
      · left
        rw [if_pos hw, if_pos hw]
      · right
        have hxM : x = M := by
          rcases hm.choice x o.x with e | e
          · rw [← e]; exact h1
          · exact absurd (e.symm.trans h1) (fun e' => hw (Or.inr e'))
        rw [if_neg hw, if_neg hw]
        exact ⟨hxM, rfl, by rw [hxM]⟩

theorem sideRun_idem {V : Type} (m : Int → Int → Int) (hm : Widening m)
    (ops : List (EdgeOp V)) (st : Int × ℚ × V) :
    sideRun m ops (sideRun m ops st) = sideRun m ops st := by
  obtain ⟨x, c⟩ := st
  obtain ⟨h1, h2⟩ := sideExtent_absorbs m hm ops x
  have hfst : (sideRun m ops (x, c)).1 = sideExtent m ops x := sideRun_fst m ops (x, c)
  have hsplit : sideRun m ops (x, c) = (sideExtent m ops x, (sideRun m ops (x, c)).2) := by
    rw [← hfst]
  rcases sideRun_from_final m hm ops (sideExtent m ops x) x c (sideRun m ops (x, c)).2 rfl
      h2 h1 with h | ⟨_, h, _⟩
  · exact (congrArg (sideRun m ops) hsplit).trans h
  · exact (congrArg (sideRun m ops) hsplit).trans (h.trans hsplit.symm)

/-- Two runs from the same extent with different attributes end in the same state, unless
no update overwrites the attributes. -/
theorem sideRun_payload {V : Type} (m : Int → Int → Int) (ops : List (EdgeOp V)) (x : Int)
    (c c' : ℚ × V) :
    sideRun m ops (x, c') = sideRun m ops (x, c)
      ∨ ((sideRun m ops (x, c')).2 = c' ∧ (sideRun m ops (x, c)).2 = c) := by
  induction ops generalizing x c c' with
  | nil => exact Or.inr ⟨rfl, rfl⟩
  | cons o ops ih =>
    rw [sideRun_cons, sideRun_cons]
    simp only [sideStep]
    by_cases hw : o.vert = true ∨ o.x = m x o.x
    · left
      rw [if_pos hw, if_pos hw]
    · rw [if_neg hw, if_neg hw]
      exact ih (m x o.x) c c'

theorem sideRun_reset_idem {V : Type} (m : Int → Int → Int) (ops : List (EdgeOp V))
    (x : Int) (c : ℚ × V) :
    sideRun m ops (x, (sideRun m ops (x, c)).2) = sideRun m ops (x, c) := by
  rcases sideRun_payload m ops x c (sideRun m ops (x, c)).2 with h | ⟨h1, h2⟩
  · exact h
  · apply Prod.ext
    · rw [sideRun_fst, sideRun_fst]
    · rw [h1]

theorem rowRun_idem {V : Type} (ops : List (EdgeOp V)) (sl : HACK_Scanline V) :
    rowRun ops (rowRun ops sl) = rowRun ops sl := by
  apply scanline_ext
  · rw [leftSide_rowRun, leftSide_rowRun, sideRun_idem _ widening_min]
  · rw [rightSide_rowRun, rightSide_rowRun, sideRun_idem _ widening_max]

theorem rowRun_reset_idem {V : Type} (ops : List (EdgeOp V)) (sl : HACK_Scanline V) :
    rowRun ops (resetUpdate (rowRun ops (resetUpdate sl))) = rowRun ops (resetUpdate sl) := by
  apply scanline_ext
  · rw [leftSide_rowRun, leftSide_rowRun]
    have h : leftSide (resetUpdate (rowRun ops (resetUpdate sl)))
        = (INT_MAX, (sideRun (fun a b => min a b) ops
            (INT_MAX, sl.leftZ, sl.leftVarying)).2) := by
      show (INT_MAX, (leftSide (rowRun ops (resetUpdate sl))).2) = _
      rw [leftSide_rowRun]
      rfl
    rw [h]
    exact sideRun_reset_idem _ ops INT_MAX _
  · rw [rightSide_rowRun, rightSide_rowRun]
    have h : rightSide (resetUpdate (rowRun ops (resetUpdate sl)))
        = (INT_MIN, (sideRun (fun a b => max a b) ops
            (INT_MIN, sl.rightZ, sl.rightVarying)).2) := by
      show (INT_MIN, (rightSide (rowRun ops (resetUpdate sl))).2) = _
      rw [rightSide_rowRun]
      rfl
    rw [h]
    exact sideRun_reset_idem _ ops INT_MIN _

/-- Walking the edges of the same triangle on the buffer the previous walk left gives that
buffer back. -/
theorem edgeWalk_twice_scanlines {V P : Type} (L : HACK_Lerp V) (ctx : HACK_Context)
    (a : VertexArray V) (s t : HACK_State V P)
    (ht : t.scanlines = (edgeWalk L ctx a s).2.scanlines) :
    (edgeWalk L ctx a t).2.scanlines = (edgeWalk L ctx a s).2.scanlines := by
  funext i
  rw [edgeWalk_scanlines L ctx a t, ht, edgeWalk_scanlines L ctx a s]
  by_cases h : 0 ≤ i ∧ i < scanlineNum ctx a
  · simp only [if_pos h]
    exact rowRun_reset_idem _ _
  · simp only [if_neg h]
    exact rowRun_idem _ _

/-! ## Membership in the list of invocations -/

theorem pixelPair_pixelCall {V P U : Type} (L : HACK_Lerp V) (ctx : HACK_Context)
    (bot : Int) (uniforms : U) (fragmentShader : V → U → P) (i : Int)
    (sl : HACK_Scanline V) (j : Int) :
    pixelPair ctx bot (pixelCall L ctx bot uniforms fragmentShader i sl j) = (i, j) := by
  simp only [pixelPair, pixelCall, Prod.mk.injEq]
  constructor <;> omega

theorem mem_shadeCalls {V P U : Type} (L : HACK_Lerp V) (ctx : HACK_Context) (bot : Int)
    (uniforms : U) (fragmentShader : V → U → P) (n : Int) (B : Int → HACK_Scanline V)
    (c : FragmentCall V P) :
    c ∈ shadeCalls L ctx bot uniforms fragmentShader n B
      ↔ ∃ i j : Int, 0 ≤ i ∧ i < n ∧ (B i).leftX ≤ j ∧ j ≤ (B i).rightX
          ∧ c = pixelCall L ctx bot uniforms fragmentShader i (B i) j := by
  unfold shadeCalls rowCalls
  simp only [List.mem_flatMap, List.mem_map, mem_intRange]
  constructor
  · rintro ⟨i, ⟨h1, h2⟩, j, ⟨h3, h4⟩, rfl⟩
    exact ⟨i, j, by omega, by omega, by omega, by omega, rfl⟩
  · rintro ⟨i, j, h1, h2, h3, h4, rfl⟩
    exact ⟨i, ⟨by omega, by omega⟩, j, ⟨by omega, by omega⟩, rfl⟩

/-! ## Row ranges -/

theorem halfHeight_bounds (ctx : HACK_Context) (h : 0 ≤ ctx.height) :
    0 ≤ halfHeight ctx ∧ 2 * halfHeight ctx ≤ ctx.height := by
  unfold halfHeight
  rw [Int.tdiv_eq_ediv h (by decide)]
  omega

theorem vertex_cases {V : Type} (a : VertexArray V) (v : HACK_vertex V)
    (hv : v ∈ [a.e0, a.e1, a.e2]) : v = a.e0 ∨ v = a.e1 ∨ v = a.e2 := by
  simpa using hv

theorem bottomScanY_le_row {V : Type} (ctx : HACK_Context) (a : VertexArray V)
    (v : HACK_vertex V) (hv : v ∈ [a.e0, a.e1, a.e2]) :
    bottomScanY ctx a ≤ Int.ceil (v.position.y * (halfHeight ctx : ℚ)) := by
  unfold bottomScanY
  apply Int.ceil_mono
  rcases vertex_cases a v hv with rfl | rfl | rfl
  · exact le_trans (min_le_left _ _) (min_le_left _ _)
  · exact le_trans (min_le_left _ _) (min_le_right _ _)
  · exact min_le_right _ _

theorem row_le_topScanY {V : Type} (ctx : HACK_Context) (a : VertexArray V)
    (v : HACK_vertex V) (hv : v ∈ [a.e0, a.e1, a.e2]) :
    Int.ceil (v.position.y * (halfHeight ctx : ℚ)) ≤ topScanY ctx a := by
  unfold topScanY
  apply Int.ceil_mono
  rcases vertex_cases a v hv with rfl | rfl | rfl
  · exact le_trans (le_max_left _ _) (le_max_left _ _)
  · exact le_trans (le_max_right _ _) (le_max_left _ _)
  · exact le_max_right _ _

theorem scanlineNum_nonneg {V : Type} (ctx : HACK_Context) (a : VertexArray V) :
    0 ≤ scanlineNum ctx a := by
  have h1 := bottomScanY_le_row ctx a a.e0 (by simp)
  have h2 := row_le_topScanY ctx a a.e0 (by simp)
  unfold scanlineNum
  omega

theorem orderEdge_zero {V : Type} (a : VertexArray V) :
    orderEdge a 0 = if a.e0.position.y > a.e1.position.y
      then { e0 := a.e1, e1 := a.e0, e2 := a.e2 } else a := by
  simp [orderEdge, VertexArray.get, VertexArray.set]

theorem orderEdge_one {V : Type} (a : VertexArray V) :
    orderEdge a 1 = if a.e1.position.y > a.e2.position.y
      then { e0 := a.e0, e1 := a.e2, e2 := a.e1 } else a := by
  simp [orderEdge, VertexArray.get, VertexArray.set]

theorem orderEdge_two {V : Type} (a : VertexArray V) :
    orderEdge a 2 = if a.e2.position.y > a.e0.position.y
      then { e0 := a.e2, e1 := a.e1, e2 := a.e0 } else a := by
  simp [orderEdge, VertexArray.get, VertexArray.set]

theorem get_mem {V : Type} (a : VertexArray V) (i : Nat) : a.get i ∈ [a.e0, a.e1, a.e2] := by
  unfold VertexArray.get
  split <;> simp

theorem set_sub {V : Type} (a : VertexArray V) (i : Nat) (v u : HACK_vertex V)
    (hu : u ∈ [(a.set i v).e0, (a.set i v).e1, (a.set i v).e2]) :
    u = v ∨ u ∈ [a.e0, a.e1, a.e2] := by
  unfold VertexArray.set at hu
  split at hu <;> simp at hu ⊢ <;> tauto

/-- The swaps only permute the array: after any iteration its entries are among the
entries before it. -/
theorem orderEdge_sub {V : Type} (a : VertexArray V) (i : Nat) (v : HACK_vertex V)
    (hv : v ∈ [(orderEdge a i).e0, (orderEdge a i).e1, (orderEdge a i).e2]) :
    v ∈ [a.e0, a.e1, a.e2] := by
  unfold orderEdge at hv
  simp only at hv
  split_ifs at hv
  · rcases set_sub _ _ _ _ hv with rfl | h
    · exact get_mem a _
    · rcases set_sub _ _ _ _ h with rfl | h2
      · exact get_mem a _
      · exact h2
  · exact hv
  · rcases set_sub _ _ _ _ hv with rfl | h
    · exact get_mem a _
    · rcases set_sub _ _ _ _ h with rfl | h2
      · exact get_mem a _
      · exact h2
  · exact hv

theorem orderEdge_zero_le {V : Type} (a : VertexArray V) :
    ((orderEdge a 0).get 0).position.y ≤ ((orderEdge a 0).get 1).position.y := by
  rw [orderEdge_zero]
  split_ifs with h
  · exact le_of_lt h
  · exact not_lt.mp h

theorem orderEdge_one_le {V : Type} (a : VertexArray V) :
    ((orderEdge a 1).get 1).position.y ≤ ((orderEdge a 1).get 2).position.y := by
  rw [orderEdge_one]
  split_ifs with h
  · exact le_of_lt h
  · exact not_lt.mp h

theorem orderEdge_two_le {V : Type} (a : VertexArray V) :
    ((orderEdge a 2).get 2).position.y ≤ ((orderEdge a 2).get 0).position.y := by
  rw [orderEdge_two]
  split_ifs with h
  · exact le_of_lt h
  · exact not_lt.mp h

/-- Every pair the edge loop binds consists of two of the three vertices, the first one
not higher than the second. -/
theorem walkedPairs_ordered {V : Type} (a : VertexArray V) (p : HACK_vertex V × HACK_vertex V)
    (hp : p ∈ walkedPairs a) :
    p.1 ∈ [a.e0, a.e1, a.e2] ∧ p.2 ∈ [a.e0, a.e1, a.e2]
      ∧ p.1.position.y ≤ p.2.position.y := by
  have s0 := orderEdge_sub a 0
  have s1 := fun v hv => s0 v (orderEdge_sub (orderEdge a 0) 1 v hv)
  have s2 := fun v hv => s1 v (orderEdge_sub (orderEdge (orderEdge a 0) 1) 2 v hv)
  unfold walkedPairs at hp
  simp only [List.mem_cons, List.mem_singleton, List.not_mem_nil, or_false] at hp
  rcases hp with rfl | rfl | rfl
  · exact ⟨s0 _ (get_mem _ 0), s0 _ (get_mem _ 1), orderEdge_zero_le a⟩
  · exact ⟨s1 _ (get_mem _ 1), s1 _ (get_mem _ 2), orderEdge_one_le (orderEdge a 0)⟩
  · exact ⟨s2 _ (get_mem _ 2), s2 _ (get_mem _ 0),
      orderEdge_two_le (orderEdge (orderEdge a 0) 1)⟩

theorem mem_pairOps {V : Type} (L : HACK_Lerp V) (ctx : HACK_Context) (bot : Int)
    (v1 v2 : HACK_vertex V) (o : EdgeOp V) (ho : o ∈ pairOps L ctx bot v1 v2) :
    ∃ y : Int, Int.ceil (v1.position.y * (halfHeight ctx : ℚ)) ≤ y
      ∧ y ≤ Int.ceil (v2.position.y * (halfHeight ctx : ℚ)) ∧ o.idx = y - bot := by
  unfold pairOps at ho
  simp only at ho
  by_cases hdy : (v2.position.y - v1.position.y) * (halfHeight ctx : ℚ) = 0
  · rw [if_pos hdy] at ho
    exact absurd ho (List.not_mem_nil o)
  · rw [if_neg hdy] at ho
    obtain ⟨y, hy, rfl⟩ := List.mem_map.mp ho
    rw [mem_intRange] at hy
    exact ⟨y, hy.1, by omega, rfl⟩

theorem edgeOps_idx_bounds {V : Type} (L : HACK_Lerp V) (ctx : HACK_Context)
    (a : VertexArray V) (o : EdgeOp V) (ho : o ∈ edgeOps L ctx a) :
    0 ≤ o.idx ∧ o.idx ≤ scanlineNum ctx a := by
  obtain ⟨p, hp, hop⟩ := List.mem_flatMap.mp ho
  obtain ⟨y, h1, h2, hidx⟩ := mem_pairOps L ctx _ _ _ o hop
  obtain ⟨m1, m2, _⟩ := walkedPairs_ordered a p hp
  have b1 := bottomScanY_le_row ctx a p.1 m1
  have b2 := row_le_topScanY ctx a p.2 m2
  unfold scanlineNum
  omega

theorem resetScanlines_scanlineAccesses {V P : Type} (n : Int) (s : HACK_State V P) :
    (resetScanlines n s).scanlineAccesses = s.scanlineAccesses ++ intRange 0 n.toNat := by
  unfold resetScanlines
  rw [forLoop_eq_foldl]
  rw [foldl_log (fun s : HACK_State V P => s.scanlineAccesses) _ (fun i => [i])
    (fun _ => True) (fun _ _ _ => trivial) (fun _ _ _ => rfl) _ _ trivial]
  congr 1
  generalize intRange 0 n.toNat = l
  induction l with
  | nil => rfl
  | cons j l ih => rw [List.flatMap_cons, ih]; rfl

theorem edgeWalk_scanlineAccesses {V P : Type} (L : HACK_Lerp V) (ctx : HACK_Context)
    (a : VertexArray V) (s : HACK_State V P) :
    (edgeWalk L ctx a s).2.scanlineAccesses
      = s.scanlineAccesses ++ intRange 0 (scanlineNum ctx a).toNat
          ++ (edgeOps L ctx a).map (fun o => o.idx) := by
  rw [edgeWalk_eq, applyEdgeOps_scanlineAccesses, resetScanlines_scanlineAccesses]

theorem ceil_row_mono (ctx : HACK_Context) (h : 0 ≤ halfHeight ctx) (y1 y2 : ℚ)
    (hy : y1 ≤ y2) :
    Int.ceil (y1 * (halfHeight ctx : ℚ)) ≤ Int.ceil (y2 * (halfHeight ctx : ℚ)) := by
  apply Int.ceil_mono
  exact mul_le_mul_of_nonneg_right hy (by exact_mod_cast h)

theorem bottomScanY_ge_neg_halfHeight {V : Type} (ctx : HACK_Context) (a : VertexArray V)
    (h : 0 ≤ halfHeight ctx)
    (hy : ∀ v ∈ [a.e0, a.e1, a.e2], -1 ≤ v.position.y ∧ v.position.y ≤ 1) :
    -halfHeight ctx ≤ bottomScanY ctx a := by
  have hq : (0 : ℚ) ≤ (halfHeight ctx : ℚ) := by exact_mod_cast h
  have key : ∀ v ∈ [a.e0, a.e1, a.e2],
      ((-halfHeight ctx : ℤ) : ℚ) ≤ v.position.y * (halfHeight ctx : ℚ) := by
    intro v hv
    have := mul_le_mul_of_nonneg_right (hy v hv).1 hq
    push_cast
    linarith
  have h2 : ((-halfHeight ctx : ℤ) : ℚ)
      ≤ min (min (a.e0.position.y * halfHeight ctx) (a.e1.position.y * halfHeight ctx))
          (a.e2.position.y * halfHeight ctx) :=
    le_min (le_min (key _ (by simp)) (key _ (by simp))) (key _ (by simp))
  have h3 := Int.ceil_mono h2
  rw [Int.ceil_intCast] at h3
  exact h3

theorem topScanY_le_halfHeight {V : Type} (ctx : HACK_Context) (a : VertexArray V)
    (h : 0 ≤ halfHeight ctx)
    (hy : ∀ v ∈ [a.e0, a.e1, a.e2], -1 ≤ v.position.y ∧ v.position.y ≤ 1) :
    topScanY ctx a ≤ halfHeight ctx := by
  have hq : (0 : ℚ) ≤ (halfHeight ctx : ℚ) := by exact_mod_cast h
  have key : ∀ v ∈ [a.e0, a.e1, a.e2],
      v.position.y * (halfHeight ctx : ℚ) ≤ ((halfHeight ctx : ℤ) : ℚ) := by
    intro v hv
    have := mul_le_mul_of_nonneg_right (hy v hv).2 hq
    linarith
  have h2 : max (max (a.e0.position.y * halfHeight ctx) (a.e1.position.y * halfHeight ctx))
          (a.e2.position.y * halfHeight ctx) ≤ ((halfHeight ctx : ℤ) : ℚ) :=
    max_le (max_le (key _ (by simp)) (key _ (by simp))) (key _ (by simp))
  have h3 := Int.ceil_mono h2
  rw [Int.ceil_intCast] at h3
  exact h3

/-! ## The claims -/

/-- C1. With `vertexCount = 3 * n` the driver rasterizes exactly `n` triangles in input
order, triangle `k` from the attributes `3k`, `3k+1`, `3k+2`, and the vertex shader is
invoked once on each of the attributes `0, 1, ..., 3n-1`, in index order (so the three
invocations of triangle `k` precede those of triangle `k+1`). -/
theorem C1_triangles_in_input_order {A V P U : Type} (L : HACK_Lerp V) (ctx : HACK_Context)
    (polygonAttributes : Int → A) (uniforms : U) (vertexShader : A → U → HACK_vertex V)
    (fragmentShader : V → U → P) (n : Nat) (s : HACK_State V P) :
    HACK_rasterize_triangles L ctx polygonAttributes uniforms (3 * (n : Int)) vertexShader
        fragmentShader s
      = (List.range n).foldl (fun (s : HACK_State V P) (k : Nat) =>
          rasterizeVertices L ctx uniforms fragmentShader
            { e0 := vertexShader (polygonAttributes (3 * (k : Int))) uniforms
              e1 := vertexShader (polygonAttributes (3 * (k : Int) + 1)) uniforms
              e2 := vertexShader (polygonAttributes (3 * (k : Int) + 2)) uniforms }
            { s with vertexCalls := s.vertexCalls ++
                [3 * (k : Int), 3 * (k : Int) + 1, 3 * (k : Int) + 2] }) s
      ∧ (HACK_rasterize_triangles L ctx polygonAttributes uniforms (3 * (n : Int))
          vertexShader fragmentShader s).vertexCalls
        = s.vertexCalls ++ (List.range (3 * n)).map (fun i : Nat => (i : Int)) := by
  have key : HACK_rasterize_triangles L ctx polygonAttributes uniforms (3 * (n : Int))
      vertexShader fragmentShader s
      = (List.range n).foldl (fun (s : HACK_State V P) (k : Nat) =>
          __HACK_rasterize_triangle L ctx (3 * (k : Int)) polygonAttributes uniforms
            vertexShader fragmentShader s) s := by
    have h := trianglesLoop_multiple (fun v s => __HACK_rasterize_triangle L ctx v
      polygonAttributes uniforms vertexShader fragmentShader s) n 0 s
    simp only [Nat.zero_add, Nat.cast_zero, mul_zero] at h
    rw [HACK_rasterize_triangles, h, List.range_eq_range']
  refine ⟨key, ?_⟩
  rw [key]
  clear key
  induction n with
  | zero => simp
  | succ n ih =>
    rw [List.range_succ, List.foldl_append, List.foldl_cons, List.foldl_nil,
      HACK_rasterize_triangle_vertexCalls, ih]
    have h : List.range (3 * (n + 1)) = List.range (3 * n) ++ [3 * n, 3 * n + 1, 3 * n + 2] := by
      rw [show 3 * (n + 1) = 3 * n + 1 + 1 + 1 by ring, List.range_succ, List.range_succ,
        List.range_succ]
      simp
    rw [h]
    simp

/-- C2 (the code at the failing input). With `vertexCount = 4` the driver runs the
triangle body for `v = 0` and for `v = 3`: the vertex shader receives the attributes
`0, 1, 2, 3, 4, 5`, two of them at an index `>= vertexCount`. -/
theorem C2_partial_triangle_is_rasterized {A V P U : Type} (L : HACK_Lerp V)
    (ctx : HACK_Context) (polygonAttributes : Int → A) (uniforms : U)
    (vertexShader : A → U → HACK_vertex V) (fragmentShader : V → U → P)
    (s : HACK_State V P) :
    (HACK_rasterize_triangles L ctx polygonAttributes uniforms 4 vertexShader
        fragmentShader s).vertexCalls = s.vertexCalls ++ [0, 1, 2, 3, 4, 5] := by
  unfold HACK_rasterize_triangles
  rw [trianglesLoop, if_pos (by decide), trianglesLoop, if_pos (by decide), trianglesLoop,
    if_neg (by decide)]
  simp [HACK_rasterize_triangle_vertexCalls]

/-- C3 (the code at the failing input). On an 8 x 8 raster, for the triangle
`(0, 1)`, `(-1, -1)`, `(1, 0)`, row `y = -2` lies in `[bottomScanY, topScanY) = [-4, 4)`
and the three edges give the x-values `-3` (edge v0 v1) and `0` (edge v1 v2) there, so
the claim asks for `leftX = -3` and `rightX = 0`; the code leaves `rightX = -3`: the
swaps of the first two iterations permute the vertex array, edge v1 v2 is never walked
and edge v0 v1 is walked twice. -/
theorem C3_edge_v1v2_not_walked :
    bottomScanY ctx8 topFirstTriangle = -4 ∧ topScanY ctx8 topFirstTriangle = 4
      ∧ specColumns ctx8 topFirstTriangle (-2) = [-3, 0]
      ∧ ((edgeWalk linearLerp ctx8 topFirstTriangle (constState 0 0)).2.scanlines
          (-2 - bottomScanY ctx8 topFirstTriangle)).leftX = -3
      ∧ ((edgeWalk linearLerp ctx8 topFirstTriangle (constState 0 0)).2.scanlines
          (-2 - bottomScanY ctx8 topFirstTriangle)).rightX = -3
      ∧ walkedPairs topFirstTriangle
          = [(topFirstTriangle.e1, topFirstTriangle.e0),
             (topFirstTriangle.e2, topFirstTriangle.e0),
             (topFirstTriangle.e1, topFirstTriangle.e0)] := by
  decide!

/-- C4 (the code at the failing input). On an 8 x 8 raster, for the triangle
`(-1, -1)`, `(1, 0)`, `(-1, 1)` with varyings `1`, `3`, `2`, slot `4` (row `y = 0`) ends
with `rightX = 4`, reached by the two general edges, whose interpolated varying at that
row is `3`; the stored `rightVarying` is `3/2`, the interpolation along the vertical edge
(column `-4`), which is walked last and overwrites both sides. -/
theorem C4_vertical_edge_overwrites_right :
    (0 : Int) ≤ 4 ∧ 4 < scanlineNum ctx8 verticalEdgeTriangle
      ∧ ((edgeWalk linearLerp ctx8 verticalEdgeTriangle (constState 0 0)).2.scanlines 4).rightX
          = 4
      ∧ ((edgeWalk linearLerp ctx8 verticalEdgeTriangle (constState 0 0)).2.scanlines
          4).rightVarying = 3 / 2
      ∧ (∃ o ∈ edgeOps linearLerp ctx8 verticalEdgeTriangle, o.idx = 4 ∧ o.x = 4)
      ∧ (∀ o ∈ edgeOps linearLerp ctx8 verticalEdgeTriangle, o.idx = 4 → o.x = 4 → o.w = 3)
      ∧ (∀ o ∈ edgeOps linearLerp ctx8 verticalEdgeTriangle,
          o.idx = 4 → o.w = 3 / 2 → o.vert = true ∧ o.x = -4) := by
  decide!

/-- C5 (counterexample). On an 8 x 1 raster `halfHeight` is `0`, so every edge has
`dy == 0` and is skipped: for the triangle `(0, 1)`, `(-1, -1)`, `(1, 0)` (inside the
viewport, three distinct `y`) the only row of `[bottomScanY, topScanY] = [0, 0]` keeps
what the buffer held, here `leftX = 7 > rightX = 3`. -/
theorem C5_counterexample_flat_raster :
    (∀ v ∈ [topFirstTriangle.e0, topFirstTriangle.e1, topFirstTriangle.e2],
        (-1 ≤ v.position.x ∧ v.position.x ≤ 1) ∧ (-1 ≤ v.position.y ∧ v.position.y ≤ 1))
      ∧ topFirstTriangle.e0.position.y ≠ topFirstTriangle.e1.position.y
      ∧ topFirstTriangle.e1.position.y ≠ topFirstTriangle.e2.position.y
      ∧ topFirstTriangle.e2.position.y ≠ topFirstTriangle.e0.position.y
      ∧ bottomScanY ctxFlat topFirstTriangle ≤ 0 ∧ 0 ≤ topScanY ctxFlat topFirstTriangle
      ∧ ¬ ((edgeWalk linearLerp ctxFlat topFirstTriangle (constState 7 3)).2.scanlines
            (0 - bottomScanY ctxFlat topFirstTriangle)).leftX
          ≤ ((edgeWalk linearLerp ctxFlat topFirstTriangle (constState 7 3)).2.scanlines
            (0 - bottomScanY ctxFlat topFirstTriangle)).rightX := by
  decide!

/-- C5 (amended). On a raster of height at least 2, for every triangle whose transformed
vertices all have `x` and `y` in `[-1, 1]` and pairwise distinct `y`, and for every
initial buffer, after the edge walk every row `y` of the inclusive range
`[bottomScanY, topScanY]` has `scanlines[y - bottomScanY].leftX <= rightX`. -/
theorem C5_rows_nonempty {V P : Type} (L : HACK_Lerp V) (ctx : HACK_Context)
    (a : VertexArray V) (s : HACK_State V P) (hheight : 2 ≤ ctx.height)
    (_hbox : ∀ v ∈ [a.e0, a.e1, a.e2],
      (-1 ≤ v.position.x ∧ v.position.x ≤ 1) ∧ (-1 ≤ v.position.y ∧ v.position.y ≤ 1))
    (h01 : a.e0.position.y ≠ a.e1.position.y) (h12 : a.e1.position.y ≠ a.e2.position.y)
    (h20 : a.e2.position.y ≠ a.e0.position.y)
    (y : Int) (hy1 : bottomScanY ctx a ≤ y) (hy2 : y ≤ topScanY ctx a) :
    ((edgeWalk L ctx a s).2.scanlines (y - bottomScanY ctx a)).leftX
      ≤ ((edgeWalk L ctx a s).2.scanlines (y - bottomScanY ctx a)).rightX := by
  have hh : 0 < halfHeight ctx := by
    unfold halfHeight
    have := Int.lt_tdiv_add_one_mul_self ctx.height (show (0 : Int) < 2 by decide)
    omega
  obtain ⟨p, hp, hb, ht, hdy⟩ := long_edge_walked ctx a hh h01 h12 h20
  obtain ⟨o, ho, hidx⟩ := pairOps_covers L ctx (bottomScanY ctx a) p.1 p.2 hdy y
    (by rw [hb]; exact hy1) (by rw [ht]; exact hy2)
  have hmem : o ∈ (edgeOps L ctx a).filter (fun o => decide (o.idx = y - bottomScanY ctx a)) := by
    rw [List.mem_filter]
    exact ⟨List.mem_flatMap.mpr ⟨p, hp, ho⟩, by simp [hidx]⟩
  rw [edgeWalk_scanlines]
  exact rowRun_leftX_le_rightX _ (List.ne_nil_of_mem hmem) _

/-- Witness of C5 (amended): the 8 x 8 raster, the triangle `(0, 1)`, `(-1, -1)`, `(1, 0)`,
a buffer holding `leftX = 7 > rightX = 3` everywhere, and the top row `y = 4`, whose slot
the reset does not cover. -/
theorem C5_rows_nonempty_witness :
    (2 ≤ ctx8.height
      ∧ (∀ v ∈ [topFirstTriangle.e0, topFirstTriangle.e1, topFirstTriangle.e2],
          (-1 ≤ v.position.x ∧ v.position.x ≤ 1) ∧ (-1 ≤ v.position.y ∧ v.position.y ≤ 1))
      ∧ topFirstTriangle.e0.position.y ≠ topFirstTriangle.e1.position.y
      ∧ topFirstTriangle.e1.position.y ≠ topFirstTriangle.e2.position.y
      ∧ topFirstTriangle.e2.position.y ≠ topFirstTriangle.e0.position.y
      ∧ bottomScanY ctx8 topFirstTriangle ≤ 4 ∧ 4 ≤ topScanY ctx8 topFirstTriangle)
    ∧ ((edgeWalk linearLerp ctx8 topFirstTriangle (constState 7 3)).2.scanlines
          (4 - bottomScanY ctx8 topFirstTriangle)).leftX
        ≤ ((edgeWalk linearLerp ctx8 topFirstTriangle (constState 7 3)).2.scanlines
          (4 - bottomScanY ctx8 topFirstTriangle)).rightX :=
  ⟨by decide!,
   C5_rows_nonempty linearLerp ctx8 topFirstTriangle (constState 7 3) (by decide!)
     (by decide!) (by decide!) (by decide!) (by decide!) 4 (by decide!) (by decide!)⟩

/-- C6 (the code at the failing input). On an 8 x 8 raster, for the triangle
`(0, 1)`, `(-1, -1)`, `(1, 0)`, whose vertices all have `y` in `[-1, 1]`, the edge walk
dereferences `scanlines[8]`, one slot past a buffer of length `ctx.height = 8`. -/
theorem C6_slot_at_height_is_accessed :
    (∀ v ∈ [topFirstTriangle.e0, topFirstTriangle.e1, topFirstTriangle.e2],
        -1 ≤ v.position.y ∧ v.position.y ≤ 1)
      ∧ 0 ≤ ctx8.height
      ∧ ctx8.height ∈ (rasterizeVertices linearLerp ctx8 () (fun _ _ => ()) topFirstTriangle
          (constState 0 0)).scanlineAccesses := by
  decide!

/-- C7. Rasterizing the same triangle twice in succession on the same buffer leaves the
buffer after the second run equal to the buffer after the first run, in every slot and
every field, and the second run makes the same sequence of fragment-shader invocations as
the first. -/
theorem C7_rasterize_twice {A V P U : Type} (L : HACK_Lerp V) (ctx : HACK_Context)
    (triangleId : Int) (polygonAttributes : Int → A) (uniforms : U)
    (vertexShader : A → U → HACK_vertex V) (fragmentShader : V → U → P)
    (s : HACK_State V P) :
    (__HACK_rasterize_triangle L ctx triangleId polygonAttributes uniforms vertexShader
        fragmentShader
        (__HACK_rasterize_triangle L ctx triangleId polygonAttributes uniforms vertexShader
          fragmentShader s)).scanlines
      = (__HACK_rasterize_triangle L ctx triangleId polygonAttributes uniforms vertexShader
          fragmentShader s).scanlines
    ∧ ∃ calls : List (FragmentCall V P),
        (__HACK_rasterize_triangle L ctx triangleId polygonAttributes uniforms vertexShader
            fragmentShader s).fragmentCalls = s.fragmentCalls ++ calls
        ∧ (__HACK_rasterize_triangle L ctx triangleId polygonAttributes uniforms vertexShader
            fragmentShader
            (__HACK_rasterize_triangle L ctx triangleId polygonAttributes uniforms
              vertexShader fragmentShader s)).fragmentCalls
          = (__HACK_rasterize_triangle L ctx triangleId polygonAttributes uniforms vertexShader
              fragmentShader s).fragmentCalls ++ calls := by
  unfold __HACK_rasterize_triangle
  simp only
  generalize shadeVertices polygonAttributes uniforms vertexShader triangleId = a
  generalize hs1 : ({ s with vertexCalls := s.vertexCalls ++
    [triangleId, triangleId + 1, triangleId + 2] } : HACK_State V P) = s1
  have hf1 : s1.fragmentCalls = s.fragmentCalls := by rw [← hs1]
  generalize ht : ({ rasterizeVertices L ctx uniforms fragmentShader a s1 with
    vertexCalls := (rasterizeVertices L ctx uniforms fragmentShader a s1).vertexCalls ++
      [triangleId, triangleId + 1, triangleId + 2] } : HACK_State V P) = t
  have hts : t.scanlines = (edgeWalk L ctx a s1).2.scanlines := by
    rw [← ht]
    exact rasterizeVertices_scanlines L ctx uniforms fragmentShader a s1
  have htf : t.fragmentCalls
      = (rasterizeVertices L ctx uniforms fragmentShader a s1).fragmentCalls := by
    rw [← ht]
  have hw := edgeWalk_twice_scanlines L ctx a s1 t hts
  refine ⟨?_, shadeCalls L ctx (bottomScanY ctx a) uniforms fragmentShader (scanlineNum ctx a)
    (edgeWalk L ctx a s1).2.scanlines, ?_, ?_⟩
  · rw [rasterizeVertices_scanlines, rasterizeVertices_scanlines, hw]
  · rw [rasterizeVertices_fragmentCalls, hf1]
  · rw [rasterizeVertices_fragmentCalls L ctx uniforms fragmentShader a t, hw, htf]

/-- C8. For two initial states (two scanline buffers), rasterizing the same triangle makes
the same sequence of fragment-shader invocations: same interpolated varying, pixel
coordinates, depth and output, in the same order.  The columns computed by the edge walk
are assumed to be representable `int` values. -/
theorem C8_buffer_carries_no_state {A V P U : Type} (L : HACK_Lerp V) (ctx : HACK_Context)
    (triangleId : Int) (polygonAttributes : Int → A) (uniforms : U)
    (vertexShader : A → U → HACK_vertex V) (fragmentShader : V → U → P)
    (s s' : HACK_State V P)
    (hrep : XRepresentable L ctx
      (shadeVertices polygonAttributes uniforms vertexShader triangleId)) :
    ∃ calls : List (FragmentCall V P),
      (__HACK_rasterize_triangle L ctx triangleId polygonAttributes uniforms vertexShader
          fragmentShader s).fragmentCalls = s.fragmentCalls ++ calls
      ∧ (__HACK_rasterize_triangle L ctx triangleId polygonAttributes uniforms vertexShader
          fragmentShader s').fragmentCalls = s'.fragmentCalls ++ calls := by
  unfold __HACK_rasterize_triangle
  simp only
  rw [rasterizeVertices_fragmentCalls, rasterizeVertices_fragmentCalls]
  refine ⟨_, rfl, ?_⟩
  rw [shadeCalls_edgeWalk_buffer L ctx uniforms fragmentShader _ hrep]

/-- Witness of C8: the triangle `(0, 1)`, `(-1, -1)`, `(1, 0)` on the 8 x 8 raster, from
an all-zero buffer and from a buffer holding `leftX = 7`, `rightX = 3` everywhere. -/
theorem C8_buffer_carries_no_state_witness :
    XRepresentable linearLerp ctx8
        (shadeVertices exampleAttributes () (fun v _ => v) 0)
    ∧ ∃ calls : List (FragmentCall ℚ Unit),
      (__HACK_rasterize_triangle linearLerp ctx8 0 exampleAttributes () (fun v _ => v)
          (fun _ _ => ()) (constState 0 0)).fragmentCalls
        = (constState 0 0).fragmentCalls ++ calls
      ∧ (__HACK_rasterize_triangle linearLerp ctx8 0 exampleAttributes () (fun v _ => v)
          (fun _ _ => ()) (constState 7 3)).fragmentCalls
        = (constState 7 3).fragmentCalls ++ calls :=
  ⟨by unfold XRepresentable; decide!,
   C8_buffer_carries_no_state linearLerp ctx8 0 exampleAttributes () (fun v _ => v)
     (fun _ _ => ()) (constState 0 0) (constState 7 3) (by unfold XRepresentable; decide!)⟩

/-- C9. When the three vertex-shader outputs have the same position, `scanlineNum` is `0`
and rasterizing the triangle adds no fragment-shader invocation to the log. -/
theorem C9_degenerate_triangle {V P U : Type} (L : HACK_Lerp V) (ctx : HACK_Context)
    (uniforms : U) (fragmentShader : V → U → P) (a : VertexArray V) (s : HACK_State V P)
    (h01 : a.e0.position = a.e1.position) (h12 : a.e1.position = a.e2.position) :
    scanlineNum ctx a = 0
      ∧ topScanY ctx a - bottomScanY ctx a = 0
      ∧ (rasterizeVertices L ctx uniforms fragmentShader a s).fragmentCalls
          = s.fragmentCalls := by
  have h0 : scanlineNum ctx a = 0 := by
    unfold scanlineNum topScanY bottomScanY
    rw [h01, h12]
    simp
  refine ⟨h0, h0, ?_⟩
  rw [rasterizeVertices_fragmentCalls, h0]
  simp [shadeCalls, intRange]

/-- Witness of C9: the triangle with all three vertices at `(1/2, 1/2)` on the 8 x 8
raster. -/
theorem C9_degenerate_triangle_witness :
    (pointTriangle.e0.position = pointTriangle.e1.position
      ∧ pointTriangle.e1.position = pointTriangle.e2.position)
    ∧ (scanlineNum ctx8 pointTriangle = 0
      ∧ topScanY ctx8 pointTriangle - bottomScanY ctx8 pointTriangle = 0
      ∧ (rasterizeVertices linearLerp ctx8 () (fun _ _ => ()) pointTriangle
          (constState 0 0)).fragmentCalls = (constState 0 0).fragmentCalls) :=
  ⟨⟨rfl, rfl⟩, C9_degenerate_triangle linearLerp ctx8 () (fun _ _ => ()) pointTriangle
    (constState 0 0) rfl rfl⟩

/-- C10. The fragment-shader invocations made while rasterizing a triangle are, as pairs
`(i, j)` of slot index and pixel column, exactly the pairs with `0 <= i < scanlineNum` and
`scanlines[i].leftX <= j <= scanlines[i].rightX` (the buffer being the one the edge walk
left); they are made in strictly increasing lexicographic order, hence once each, by
increasing `i` and, within a row, increasing `j`; a row with `leftX > rightX` gets none;
the invocations logged before the call are kept in front. -/
theorem C10_fragment_invocations {V P U : Type} (L : HACK_Lerp V) (ctx : HACK_Context)
    (uniforms : U) (fragmentShader : V → U → P) (a : VertexArray V) (s : HACK_State V P) :
    ∃ calls : List (FragmentCall V P),
      (rasterizeVertices L ctx uniforms fragmentShader a s).fragmentCalls
          = s.fragmentCalls ++ calls
      ∧ (∀ i j : Int, (i, j) ∈ calls.map (pixelPair ctx (bottomScanY ctx a))
          ↔ 0 ≤ i ∧ i < scanlineNum ctx a
            ∧ ((edgeWalk L ctx a s).2.scanlines i).leftX ≤ j
            ∧ j ≤ ((edgeWalk L ctx a s).2.scanlines i).rightX)
      ∧ (calls.map (pixelPair ctx (bottomScanY ctx a))).Pairwise pairBefore
      ∧ (∀ i j : Int, ((edgeWalk L ctx a s).2.scanlines i).leftX
            > ((edgeWalk L ctx a s).2.scanlines i).rightX
          → (i, j) ∉ calls.map (pixelPair ctx (bottomScanY ctx a)))
      ∧ (∀ c ∈ calls, c.pixelX = (pixelPair ctx (bottomScanY ctx a) c).2 + halfWidth ctx
          ∧ c.pixelY = (pixelPair ctx (bottomScanY ctx a) c).1 + bottomScanY ctx a
              + halfHeight ctx) := by
  refine ⟨_, rasterizeVertices_fragmentCalls L ctx uniforms fragmentShader a s,
    fun i j => mem_shadeCalls_pairs L ctx _ uniforms fragmentShader _ _ i j,
    shadeCalls_pairs_sorted L ctx _ uniforms fragmentShader _ _, ?_, ?_⟩
  · intro i j hgt hmem
    rw [mem_shadeCalls_pairs] at hmem
    omega
  · intro c _
    simp only [pixelPair]
    constructor <;> omega

/-- C11. Let the interpolation satisfy `lerp(a, b, 0) = a` and `lerp(a, b, 1) = b` (for
the varying and for the depth).  For every shaded slot `i` with `leftX < rightX` in the
buffer the edge walk left: the pixel `j = leftX` is shaded, and every invocation for it
carries exactly the stored `leftVarying` and `leftZ`; the pixel `j = rightX` is shaded,
and every invocation for it carries exactly the stored `rightVarying` and `rightZ`. -/
theorem C11_boundary_exactness {V P U : Type} (L : HACK_Lerp V)
    (hv0 : ∀ a b : V, L.varying a b (some 0) = a)
    (hv1 : ∀ a b : V, L.varying a b (some 1) = b)
    (hs0 : ∀ a b : ℚ, L.scalar a b (some 0) = a)
    (hs1 : ∀ a b : ℚ, L.scalar a b (some 1) = b)
    (ctx : HACK_Context) (uniforms : U) (fragmentShader : V → U → P) (a : VertexArray V)
    (s : HACK_State V P) :
    ∃ calls : List (FragmentCall V P),
      (rasterizeVertices L ctx uniforms fragmentShader a s).fragmentCalls
          = s.fragmentCalls ++ calls
      ∧ ∀ i : Int, 0 ≤ i → i < scanlineNum ctx a →
          ((edgeWalk L ctx a s).2.scanlines i).leftX
            < ((edgeWalk L ctx a s).2.scanlines i).rightX →
          (∃ c ∈ calls, pixelPair ctx (bottomScanY ctx a) c
              = (i, ((edgeWalk L ctx a s).2.scanlines i).leftX))
          ∧ (∀ c ∈ calls, pixelPair ctx (bottomScanY ctx a) c
              = (i, ((edgeWalk L ctx a s).2.scanlines i).leftX) →
            c.varying = ((edgeWalk L ctx a s).2.scanlines i).leftVarying
              ∧ c.pixelZ = ((edgeWalk L ctx a s).2.scanlines i).leftZ)
          ∧ (∃ c ∈ calls, pixelPair ctx (bottomScanY ctx a) c
              = (i, ((edgeWalk L ctx a s).2.scanlines i).rightX))
          ∧ (∀ c ∈ calls, pixelPair ctx (bottomScanY ctx a) c
              = (i, ((edgeWalk L ctx a s).2.scanlines i).rightX) →
            c.varying = ((edgeWalk L ctx a s).2.scanlines i).rightVarying
              ∧ c.pixelZ = ((edgeWalk L ctx a s).2.scanlines i).rightZ) := by
  refine ⟨_, rasterizeVertices_fragmentCalls L ctx uniforms fragmentShader a s, ?_⟩
  intro i hi0 hin hlt
  generalize (edgeWalk L ctx a s).2.scanlines = B at hlt ⊢
  have hne : (((B i).rightX - (B i).leftX : Int) : ℚ) ≠ 0 := by
    have : (B i).rightX - (B i).leftX ≠ 0 := by omega
    exact_mod_cast this
  refine ⟨?_, ?_, ?_, ?_⟩
  · refine ⟨pixelCall L ctx (bottomScanY ctx a) uniforms fragmentShader i (B i) (B i).leftX,
      ?_, pixelPair_pixelCall _ _ _ _ _ _ _ _⟩
    rw [mem_shadeCalls]
    exact ⟨i, _, hi0, hin, le_refl _, le_of_lt hlt, rfl⟩
  · intro c hc hp
    rw [mem_shadeCalls] at hc
    obtain ⟨i', j, _, _, _, _, rfl⟩ := hc
    rw [pixelPair_pixelCall, Prod.mk.injEq] at hp
    obtain ⟨rfl, rfl⟩ := hp
    simp only [pixelCall, fdiv, if_neg hne, sub_self, Int.cast_zero, zero_div, hv0, hs0,
      and_self]
  · refine ⟨pixelCall L ctx (bottomScanY ctx a) uniforms fragmentShader i (B i) (B i).rightX,
      ?_, pixelPair_pixelCall _ _ _ _ _ _ _ _⟩
    rw [mem_shadeCalls]
    exact ⟨i, _, hi0, hin, le_of_lt hlt, le_refl _, rfl⟩
  · intro c hc hp
    rw [mem_shadeCalls] at hc
    obtain ⟨i', j, _, _, _, _, rfl⟩ := hc
    rw [pixelPair_pixelCall, Prod.mk.injEq] at hp
    obtain ⟨rfl, rfl⟩ := hp
    simp only [pixelCall, fdiv, if_neg hne, div_self hne, hv1, hs1, and_self]

/-- Witness of C11: `linearLerp` on the 8 x 8 raster with the triangle
`(0, 1)`, `(-1, -1)`, `(1, 0)`; its slot `4` spans the columns `-2 .. 4`. -/
theorem C11_boundary_exactness_witness :
    ((∀ a b : ℚ, linearLerp.varying a b (some 0) = a)
      ∧ (∀ a b : ℚ, linearLerp.varying a b (some 1) = b)
      ∧ (∀ a b : ℚ, linearLerp.scalar a b (some 0) = a)
      ∧ (∀ a b : ℚ, linearLerp.scalar a b (some 1) = b))
    ∧ ∃ calls : List (FragmentCall ℚ Unit),
      (rasterizeVertices linearLerp ctx8 () (fun _ _ => ()) topFirstTriangle
          (constState 0 0)).fragmentCalls = (constState 0 0).fragmentCalls ++ calls
      ∧ ∀ i : Int, 0 ≤ i → i < scanlineNum ctx8 topFirstTriangle →
          ((edgeWalk linearLerp ctx8 topFirstTriangle (constState 0 0)).2.scanlines i).leftX
            < ((edgeWalk linearLerp ctx8 topFirstTriangle (constState 0 0)).2.scanlines
                i).rightX →
          (∃ c ∈ calls, pixelPair ctx8 (bottomScanY ctx8 topFirstTriangle) c
              = (i, ((edgeWalk linearLerp ctx8 topFirstTriangle
                  (constState 0 0)).2.scanlines i).leftX))
          ∧ (∀ c ∈ calls, pixelPair ctx8 (bottomScanY ctx8 topFirstTriangle) c
              = (i, ((edgeWalk linearLerp ctx8 topFirstTriangle
                  (constState 0 0)).2.scanlines i).leftX) →
            c.varying = ((edgeWalk linearLerp ctx8 topFirstTriangle
                (constState 0 0)).2.scanlines i).leftVarying
              ∧ c.pixelZ = ((edgeWalk linearLerp ctx8 topFirstTriangle
                (constState 0 0)).2.scanlines i).leftZ)
          ∧ (∃ c ∈ calls, pixelPair ctx8 (bottomScanY ctx8 topFirstTriangle) c
              = (i, ((edgeWalk linearLerp ctx8 topFirstTriangle
                  (constState 0 0)).2.scanlines i).rightX))
          ∧ (∀ c ∈ calls, pixelPair ctx8 (bottomScanY ctx8 topFirstTriangle) c
              = (i, ((edgeWalk linearLerp ctx8 topFirstTriangle
                  (constState 0 0)).2.scanlines i).rightX) →
            c.varying = ((edgeWalk linearLerp ctx8 topFirstTriangle
                (constState 0 0)).2.scanlines i).rightVarying
              ∧ c.pixelZ = ((edgeWalk linearLerp ctx8 topFirstTriangle
                (constState 0 0)).2.scanlines i).rightZ) :=
  ⟨⟨fun a b => by simp [linearLerp], fun a b => by simp [linearLerp],
    fun a b => by simp [linearLerp], fun a b => by simp [linearLerp]⟩,
   C11_boundary_exactness linearLerp (fun a b => by simp [linearLerp])
     (fun a b => by simp [linearLerp]) (fun a b => by simp [linearLerp])
     (fun a b => by simp [linearLerp]) ctx8 () (fun _ _ => ()) topFirstTriangle
     (constState 0 0)⟩

/-- C12 (the code at the failing input). On an 8 x 8 raster, for the triangle
`(0, 1)`, `(-1, -1)`, `(1, 0)`, slot `0` is a shaded single-pixel span
(`leftX = rightX = -4`) holding `leftVarying = 2`.  Its one pixel is shaded with the
quotient `0 / 0`, which is not `t = 0`: the divisor is zero, and the varying passed to the
fragment shader is `lerp(2, 2, 0/0)`, which `linearLerp` makes `0`, not the stored `2`. -/
theorem C12_single_pixel_divides_by_zero :
    0 < scanlineNum ctx8 topFirstTriangle
      ∧ ((edgeWalk linearLerp ctx8 topFirstTriangle (constState 0 0)).2.scanlines 0).leftX = -4
      ∧ ((edgeWalk linearLerp ctx8 topFirstTriangle (constState 0 0)).2.scanlines 0).rightX
          = -4
      ∧ ((edgeWalk linearLerp ctx8 topFirstTriangle (constState 0 0)).2.scanlines
          0).leftVarying = 2
      ∧ fdiv (((-4 : Int) - (-4 : Int) : Int) : ℚ) (((-4 : Int) - (-4 : Int) : Int) : ℚ) = none
      ∧ (rasterizeVertices linearLerp ctx8 () (fun _ _ => ()) topFirstTriangle
          (constState 0 0)).fragmentCalls.head?
        = some { varying := linearLerp.varying 2 2 none, pixelX := 0, pixelY := 0,
                 pixelZ := linearLerp.scalar 0 0 none, output := () }
      ∧ linearLerp.varying 2 2 none ≠ 2
      ∧ linearLerp.varying 2 2 (some 0) = 2 := by
  decide!

/-- C13 (the code at the failing input). On an 8 x 8 raster (`halfWidth = 4`), for the
triangle `(1/2, -1)`, `(-1, 0)`, `(1/2, 1)`, the edge from `(1/2, -1)` to `(1/2, 1)` is
vertical at `c = 1/2`.  The line equation of the general branch gives
`ceil(c * halfWidth) = 2` at each of its rows; the vertical branch computes
`ceil(c) * halfWidth = 4`, and that is the `rightX` the walk leaves in slot `0`. -/
theorem C13_vertical_column_is_ceil_times_halfWidth :
    (halfColumnTriangle.e0, halfColumnTriangle.e2) ∈ walkedPairs halfColumnTriangle
      ∧ (halfColumnTriangle.e2.position.x - halfColumnTriangle.e0.position.x)
          * (halfWidth ctx8 : ℚ) = 0
      ∧ Int.ceil ((1 / 2 : ℚ) * (halfWidth ctx8 : ℚ)) = 2
      ∧ (∀ y ∈ intRange (-4) 9,
          generalX (halfWidth ctx8) (halfHeight ctx8) halfColumnTriangle.e0
            halfColumnTriangle.e2 y = 2)
      ∧ verticalX (halfWidth ctx8) halfColumnTriangle.e2 = 4
      ∧ (∀ o ∈ edgeOps linearLerp ctx8 halfColumnTriangle, o.vert = true → o.x = 4)
      ∧ ((edgeWalk linearLerp ctx8 halfColumnTriangle (constState 0 0)).2.scanlines 0).rightX
          = 4 := by
  decide!

/-- C14 (the code at the failing input). On an 8 x 8 raster, the vertices `(0, 1)`,
`(-1, -1)`, `(1, 0)` and the same vertices in the order `(-1, -1)`, `(1, 0)`, `(0, 1)`
give the same `scanlineNum = 8`, but slot `2` ends with `rightX = -3` in the first order
and `rightX = 0` in the second, where the pixel `(pixelX, pixelY) = (4, 2)` is shaded
that the first order leaves out. -/
theorem C14_vertex_order_changes_coverage :
    bottomFirstTriangle
        = { e0 := topFirstTriangle.e1, e1 := topFirstTriangle.e2, e2 := topFirstTriangle.e0 }
      ∧ scanlineNum ctx8 topFirstTriangle = 8
      ∧ scanlineNum ctx8 bottomFirstTriangle = 8
      ∧ ((edgeWalk linearLerp ctx8 topFirstTriangle (constState 0 0)).2.scanlines 2).rightX
          = -3
      ∧ ((edgeWalk linearLerp ctx8 bottomFirstTriangle (constState 0 0)).2.scanlines
          2).rightX = 0
      ∧ ((4 : Int), (2 : Int)) ∉ (rasterizeVertices linearLerp ctx8 () (fun _ _ => ())
          topFirstTriangle (constState 0 0)).fragmentCalls.map (fun c => (c.pixelX, c.pixelY))
      ∧ ((4 : Int), (2 : Int)) ∈ (rasterizeVertices linearLerp ctx8 () (fun _ _ => ())
          bottomFirstTriangle (constState 0 0)).fragmentCalls.map
            (fun c => (c.pixelX, c.pixelY)) := by
  decide!

/-- C15. For a context with `height >= 0`: `bottomScanY` and `topScanY` are the ceilings
of the minimum and of the maximum of the three `y` times `halfHeight`, and
`scanlineNum = topScanY - bottomScanY >= 0`; every pair `(v1, v2)` the edge loop binds has
`bottomScanY <= bottomY <= topY <= topScanY`; so every slot index `y - bottomScanY` of a
row update, and every index the reset and the edge walk dereference, lies in
`[0, scanlineNum]`. -/
theorem C15_row_ranges {V P : Type} (L : HACK_Lerp V) (ctx : HACK_Context)
    (a : VertexArray V) (s : HACK_State V P) (hheight : 0 ≤ ctx.height) :
    bottomScanY ctx a
        = Int.ceil (min (min a.e0.position.y a.e1.position.y) a.e2.position.y
            * (halfHeight ctx : ℚ))
      ∧ topScanY ctx a
        = Int.ceil (max (max a.e0.position.y a.e1.position.y) a.e2.position.y
            * (halfHeight ctx : ℚ))
      ∧ scanlineNum ctx a = topScanY ctx a - bottomScanY ctx a
      ∧ 0 ≤ scanlineNum ctx a
      ∧ (∀ p ∈ walkedPairs a,
          bottomScanY ctx a ≤ Int.ceil (p.1.position.y * (halfHeight ctx : ℚ))
            ∧ Int.ceil (p.1.position.y * (halfHeight ctx : ℚ))
                ≤ Int.ceil (p.2.position.y * (halfHeight ctx : ℚ))
            ∧ Int.ceil (p.2.position.y * (halfHeight ctx : ℚ)) ≤ topScanY ctx a)
      ∧ (∀ o ∈ edgeOps L ctx a, 0 ≤ o.idx ∧ o.idx ≤ scanlineNum ctx a)
      ∧ (∀ idx ∈ (edgeWalk L ctx a s).2.scanlineAccesses.drop s.scanlineAccesses.length,
          0 ≤ idx ∧ idx ≤ scanlineNum ctx a) := by
  have hh := (halfHeight_bounds ctx hheight).1
  have hq : (0 : ℚ) ≤ (halfHeight ctx : ℚ) := by exact_mod_cast hh
  refine ⟨?_, ?_, rfl, scanlineNum_nonneg ctx a, ?_, edgeOps_idx_bounds L ctx a, ?_⟩
  · unfold bottomScanY
    rw [min_mul_of_nonneg _ _ hq, min_mul_of_nonneg _ _ hq]
  · unfold topScanY
    rw [max_mul_of_nonneg _ _ hq, max_mul_of_nonneg _ _ hq]
  · intro p hp
    obtain ⟨m1, m2, hle⟩ := walkedPairs_ordered a p hp
    exact ⟨bottomScanY_le_row ctx a p.1 m1, ceil_row_mono ctx hh _ _ hle,
      row_le_topScanY ctx a p.2 m2⟩
  · intro idx hidx
    rw [edgeWalk_scanlineAccesses, List.append_assoc, List.drop_left] at hidx
    rcases List.mem_append.mp hidx with h | h
    · rw [mem_intRange] at h
      have := scanlineNum_nonneg ctx a
      omega
    · obtain ⟨o, ho, rfl⟩ := List.mem_map.mp h
      exact edgeOps_idx_bounds L ctx a o ho

/-- Witness of C15: the 8 x 8 raster and the triangle `(0, 1)`, `(-1, -1)`, `(1, 0)`. -/
theorem C15_row_ranges_witness :
    0 ≤ ctx8.height
    ∧ (bottomScanY ctx8 topFirstTriangle
        = Int.ceil (min (min topFirstTriangle.e0.position.y topFirstTriangle.e1.position.y)
            topFirstTriangle.e2.position.y * (halfHeight ctx8 : ℚ))
      ∧ topScanY ctx8 topFirstTriangle
        = Int.ceil (max (max topFirstTriangle.e0.position.y topFirstTriangle.e1.position.y)
            topFirstTriangle.e2.position.y * (halfHeight ctx8 : ℚ))
      ∧ scanlineNum ctx8 topFirstTriangle
        = topScanY ctx8 topFirstTriangle - bottomScanY ctx8 topFirstTriangle
      ∧ 0 ≤ scanlineNum ctx8 topFirstTriangle
      ∧ (∀ p ∈ walkedPairs topFirstTriangle,
          bottomScanY ctx8 topFirstTriangle
              ≤ Int.ceil (p.1.position.y * (halfHeight ctx8 : ℚ))
            ∧ Int.ceil (p.1.position.y * (halfHeight ctx8 : ℚ))
                ≤ Int.ceil (p.2.position.y * (halfHeight ctx8 : ℚ))
            ∧ Int.ceil (p.2.position.y * (halfHeight ctx8 : ℚ))
                ≤ topScanY ctx8 topFirstTriangle)
      ∧ (∀ o ∈ edgeOps linearLerp ctx8 topFirstTriangle,
          0 ≤ o.idx ∧ o.idx ≤ scanlineNum ctx8 topFirstTriangle)
      ∧ (∀ idx ∈ (edgeWalk linearLerp ctx8 topFirstTriangle
            (constState 0 0)).2.scanlineAccesses.drop (constState 0 0).scanlineAccesses.length,
          0 ≤ idx ∧ idx ≤ scanlineNum ctx8 topFirstTriangle)) :=
  ⟨by decide!, C15_row_ranges linearLerp ctx8 topFirstTriangle (constState 0 0) (by decide!)⟩

/-- C16. For a context with `height >= 0` and a triangle whose transformed vertices all
have `y` in `[-1, 1]`, every fragment-shader invocation made while rasterizing the
triangle is for a row `pixelY = i + bottomScanY + halfHeight` with `0 <= i < scanlineNum`,
and `0 <= pixelY < ctx.height`. -/
theorem C16_pixel_rows_inside_raster {V P U : Type} (L : HACK_Lerp V) (ctx : HACK_Context)
    (uniforms : U) (fragmentShader : V → U → P) (a : VertexArray V) (s : HACK_State V P)
    (hheight : 0 ≤ ctx.height)
    (hy : ∀ v ∈ [a.e0, a.e1, a.e2], -1 ≤ v.position.y ∧ v.position.y ≤ 1) :
    ∃ calls : List (FragmentCall V P),
      (rasterizeVertices L ctx uniforms fragmentShader a s).fragmentCalls
          = s.fragmentCalls ++ calls
      ∧ ∀ c ∈ calls,
          (∃ i : Int, 0 ≤ i ∧ i < scanlineNum ctx a
            ∧ c.pixelY = i + bottomScanY ctx a + halfHeight ctx)
          ∧ 0 ≤ c.pixelY ∧ c.pixelY < ctx.height := by
  refine ⟨_, rasterizeVertices_fragmentCalls L ctx uniforms fragmentShader a s, ?_⟩
  intro c hc
  rw [mem_shadeCalls] at hc
  obtain ⟨i, j, hi0, hin, _, _, rfl⟩ := hc
  obtain ⟨hh0, hh2⟩ := halfHeight_bounds ctx hheight
  have hb := bottomScanY_ge_neg_halfHeight ctx a hh0 hy
  have ht := topScanY_le_halfHeight ctx a hh0 hy
  have hn : scanlineNum ctx a = topScanY ctx a - bottomScanY ctx a := rfl
  refine ⟨⟨i, hi0, hin, rfl⟩, ?_, ?_⟩
  · show 0 ≤ i + bottomScanY ctx a + halfHeight ctx
    omega
  · show i + bottomScanY ctx a + halfHeight ctx < ctx.height
    omega

/-- Witness of C16: the 8 x 8 raster and the triangle `(0, 1)`, `(-1, -1)`, `(1, 0)`. -/
theorem C16_pixel_rows_inside_raster_witness :
    (0 ≤ ctx8.height
      ∧ ∀ v ∈ [topFirstTriangle.e0, topFirstTriangle.e1, topFirstTriangle.e2],
          -1 ≤ v.position.y ∧ v.position.y ≤ 1)
    ∧ ∃ calls : List (FragmentCall ℚ Unit),
      (rasterizeVertices linearLerp ctx8 () (fun _ _ => ()) topFirstTriangle
          (constState 0 0)).fragmentCalls = (constState 0 0).fragmentCalls ++ calls
      ∧ ∀ c ∈ calls,
          (∃ i : Int, 0 ≤ i ∧ i < scanlineNum ctx8 topFirstTriangle
            ∧ c.pixelY = i + bottomScanY ctx8 topFirstTriangle + halfHeight ctx8)
          ∧ 0 ≤ c.pixelY ∧ c.pixelY < ctx8.height :=
  ⟨⟨by decide!, by decide!⟩,
   C16_pixel_rows_inside_raster linearLerp ctx8 () (fun _ _ => ()) topFirstTriangle
     (constState 0 0) (by decide!) (by decide!)⟩

/-- C17 (the code at the failing input). On an 8 x 8 raster, for the triangle
`(-1, 0)`, `(1, 1/40)`, `(0, 1)` (no vertical edge, all `x` in `[-1, 1]`), the bounding
columns are `ceil(-1 * 4) = -4` and `ceil(1 * 4) = 4`; the edge from `(-1, 0)` to
`(1, 1/40)` is walked up to row `ceil(1/10) = 1`, where its line equation gives `x = 76`,
so slot `1` ends with `rightX = 76` and the fragment shader is invoked for
`pixelX = 76 + 4 = 80 > ctx.width`. -/
theorem C17_column_outside_bounding_box :
    0 ≤ ctx8.width ∧ 0 ≤ ctx8.height
      ∧ shallowEdgeTriangle.e0.position.x ≠ shallowEdgeTriangle.e1.position.x
      ∧ shallowEdgeTriangle.e1.position.x ≠ shallowEdgeTriangle.e2.position.x
      ∧ shallowEdgeTriangle.e2.position.x ≠ shallowEdgeTriangle.e0.position.x
      ∧ (∀ v ∈ [shallowEdgeTriangle.e0, shallowEdgeTriangle.e1, shallowEdgeTriangle.e2],
          -1 ≤ v.position.x ∧ v.position.x ≤ 1)
      ∧ Int.ceil ((1 : ℚ) * (halfWidth ctx8 : ℚ)) = 4
      ∧ 1 < scanlineNum ctx8 shallowEdgeTriangle
      ∧ ((edgeWalk linearLerp ctx8 shallowEdgeTriangle (constState 0 0)).2.scanlines 1).rightX
          = 76
      ∧ (∃ c ∈ (rasterizeVertices linearLerp ctx8 () (fun _ _ => ()) shallowEdgeTriangle
            (constState 0 0)).fragmentCalls,
          c.pixelX = 80 ∧ c.pixelX - halfWidth ctx8 = 76 ∧ ctx8.width < c.pixelX) := by
  decide!

/-- C18 (the code at the failing input). On an 8 x 8 raster, the edge from
`(-1, 0)` (depth `0`) to `(1, 1/40)` (depth `1`) is not horizontal and is walked for the
rows `ceil(0) = 0` to `ceil(1/10) = 1`; at row `1` the interpolation parameter is
`(1 - 0) / (1/10 - 0) = 10 > 1`, and the depth stored in slot `1` is `10`, outside
`[0, 1]`. -/
theorem C18_lerp_parameter_exceeds_one :
    (shallowEdgeTriangle.e0, shallowEdgeTriangle.e1) ∈ walkedPairs shallowEdgeTriangle
      ∧ (shallowEdgeTriangle.e1.position.y - shallowEdgeTriangle.e0.position.y)
          * (halfHeight ctx8 : ℚ) ≠ 0
      ∧ Int.ceil (shallowEdgeTriangle.e0.position.y * (halfHeight ctx8 : ℚ)) ≤ 1
      ∧ 1 ≤ Int.ceil (shallowEdgeTriangle.e1.position.y * (halfHeight ctx8 : ℚ))
      ∧ edgeLerpVal (halfHeight ctx8) shallowEdgeTriangle.e0 shallowEdgeTriangle.e1 1
          = some 10
      ∧ shallowEdgeTriangle.e0.position.z = 0 ∧ shallowEdgeTriangle.e1.position.z = 1
      ∧ ((edgeWalk linearLerp ctx8 shallowEdgeTriangle (constState 0 0)).2.scanlines 1).rightZ
          = 10 := by
  decide!

end Hack
